import Mathlib

/-!
# Landmark database and estimator skeleton of `basalt`

A shallow embedding of

* `include/basalt/vi_estimator/landmark_database.h`
  (`Landmark`, `LandmarkDatabase`), and
* `include/basalt/vi_estimator/vio_estimator.h`
  (`VioEstimatorBase`: constructor and `drain_input_queues`).

Conventions of the embedding.

* The headers are templates over `Scalar_`; the embedding is parametric in a
  type `S` of scalars.  `backup`/`restore`/field writes only copy scalars, so
  nothing depends on the arithmetic of `S`.
* `Eigen::Matrix<Scalar, 2, 1>` is a pair `S × S`.
* `std::map`, `std::unordered_map` and `Eigen::aligned_*map` are association
  lists `List (K × V)`; the list order is the order in which the container is
  enumerated.  `std::set` is a list of elements.  The containers of the
  C++ library never hold a key twice; that is the predicate `WF` below, shown
  to be preserved by every operation rather than assumed in the definitions.
* `FrameId`, `TimeCamId` and `LandmarkId` are declared in headers that are not
  part of the two files above; they are integers, resp. a pair of a frame id
  and a camera index.
-/

namespace Basalt

/-! ## Identifiers -/

/-- Sensor sample time (`int64_t` nanoseconds). -/
abbrev FrameId := Int

/-- Identifier of a 3D point. -/
abbrev LandmarkId := Int

/-- One imaged view: a frame and the index of the camera. -/
structure TimeCamId where
  frame_id : FrameId
  cam_id : Nat
  deriving DecidableEq, Repr

/-- Embeds `Eigen::Matrix<Scalar, 2, 1>`. -/
abbrev Vec2 (S : Type) := S × S

/-! ## Landmark -/

/-- Embeds `struct KeypointObservation`. -/
structure KeypointObservation (S : Type) where
  kpt_id : LandmarkId
  pos : Vec2 S

/-- Embeds `struct Landmark`: the public fields followed by the two private snapshot
fields. -/
structure Landmark (S : Type) where
  direction : Vec2 S
  inv_dist : S
  host_kf_id : TimeCamId
  obs : List (TimeCamId × Vec2 S)
  id : LandmarkId
  backup_direction : Vec2 S
  backup_inv_dist : S

/-- Embeds `Landmark::backup`:
`backup_direction = direction; backup_inv_dist = inv_dist;`. -/
def Landmark.backup {S : Type} (lm : Landmark S) : Landmark S :=
  { lm with backup_direction := lm.direction, backup_inv_dist := lm.inv_dist }

/-- Embeds `Landmark::restore`:
`direction = backup_direction; inv_dist = backup_inv_dist;`. -/
def Landmark.restore {S : Type} (lm : Landmark S) : Landmark S :=
  { lm with direction := lm.backup_direction, inv_dist := lm.backup_inv_dist }

/-- A write to one of the two position parameters of a landmark:
`lm.direction = d` or `lm.inv_dist = r`. -/
inductive FieldWrite (S : Type) where
  | direction (d : Vec2 S)
  | inv_dist (r : S)

/-- Perform one write to a public position parameter. -/
def Landmark.write {S : Type} (lm : Landmark S) : FieldWrite S → Landmark S
  | .direction d => { lm with direction := d }
  | .inv_dist r => { lm with inv_dist := r }

/-- Perform a sequence of writes, first to last. -/
def Landmark.writes {S : Type} (lm : Landmark S) (ws : List (FieldWrite S)) : Landmark S :=
  ws.foldl Landmark.write lm

/-! ## Association lists -/

section Assoc
variable {K V : Type} [DecidableEq K]

/-- Keys of a container, in enumeration order. -/
def keys (m : List (K × V)) : List K := m.map Prod.fst

/-- Lookup `m.find(k)`: the value stored under `k`, if any. -/
def find : List (K × V) → K → Option V
  | [], _ => none
  | (k', v) :: r, k => if k' = k then some v else find r k

/-- Removal `m.erase(k)` of the entry stored under `k`. -/
def erase (m : List (K × V)) (k : K) : List (K × V) :=
  m.filter (fun kv => decide (kv.1 ≠ k))

/-- Assignment `m[k] = v`: overwrite the value stored under `k`, or add the entry. -/
def upsert : List (K × V) → K → V → List (K × V)
  | [], k, v => [(k, v)]
  | (k', v') :: r, k, v => if k' = k then (k, v) :: r else (k', v') :: upsert r k v

/-- Apply `f` in place to the value stored under `k` (as through a reference
obtained from the container); nothing happens when `k` is absent. -/
def modify (m : List (K × V)) (k : K) (f : V → V) : List (K × V) :=
  m.map (fun kv => if kv.1 = k then (kv.1, f kv.2) else kv)

end Assoc

/-! ## Landmark database: state, and the operations defined in the header -/

/-- Type of the reverse index `observations`:
host view → target view → set of landmark ids. -/
abbrev ObsIndex := List (TimeCamId × List (TimeCamId × List LandmarkId))

/-- Private state of `class LandmarkDatabase`. -/
structure LandmarkDatabase (S : Type) where
  kpts : List (LandmarkId × Landmark S)
  observations : ObsIndex

/-- Embeds `static constexpr int min_num_obs = 2;`. -/
def min_num_obs : Nat := 2

/-- A default-constructed database. -/
def LandmarkDatabase.empty {S : Type} : LandmarkDatabase S :=
  { kpts := [], observations := [] }

/-- Embeds `LandmarkDatabase::clear`: `kpts.clear(); observations.clear();`. -/
def LandmarkDatabase.clear {S : Type} (_db : LandmarkDatabase S) : LandmarkDatabase S :=
  { kpts := [], observations := [] }

/-- Embeds `LandmarkDatabase::backup`: `for (auto& kv : kpts) kv.second.backup();`,
visiting the entries in the enumeration order of `kpts`. -/
def LandmarkDatabase.backup {S : Type} (db : LandmarkDatabase S) : LandmarkDatabase S :=
  { db with kpts := db.kpts.map (fun kv => (kv.1, kv.2.backup)) }

/-- Embeds `LandmarkDatabase::restore`: `for (auto& kv : kpts) kv.second.restore();`. -/
def LandmarkDatabase.restore {S : Type} (db : LandmarkDatabase S) : LandmarkDatabase S :=
  { db with kpts := db.kpts.map (fun kv => (kv.1, kv.2.restore)) }

/-- The loop of `backup`/`restore` run in another enumeration order: the
entries are visited in the order `order` of their keys and `f` is applied in
place to each entry visited. -/
def LandmarkDatabase.visitInOrder {S : Type} (f : Landmark S → Landmark S)
    (order : List LandmarkId) (db : LandmarkDatabase S) : LandmarkDatabase S :=
  order.foldl (fun d id => { d with kpts := modify d.kpts id f }) db

/-- Perform one write on the landmark stored under the id `w.1`, as through
the reference returned by `getLandmark`; no landmark is added or removed. -/
def LandmarkDatabase.write {S : Type} (db : LandmarkDatabase S)
    (w : LandmarkId × FieldWrite S) : LandmarkDatabase S :=
  { db with kpts := modify db.kpts w.1 (fun lm => lm.write w.2) }

/-- Perform a sequence of writes, first to last. -/
def LandmarkDatabase.writes {S : Type} (db : LandmarkDatabase S)
    (ws : List (LandmarkId × FieldWrite S)) : LandmarkDatabase S :=
  ws.foldl LandmarkDatabase.write db

/-! ## Landmark database: the operations declared in the header

`landmark_database.h` declares the mutating operations; their bodies are in a
translation unit outside the two headers.  They are modelled from the
specification of the database (§3, §4.2, §7). -/

/-- Failure conditions of the database operations (§7 of the specification). -/
inductive DbError where
  | NotFound
  | DuplicateKey
  deriving DecidableEq, Repr

/-- Read of the reverse index: the id set `observations[h][t]`, empty when the
host or the target has no entry (the read does not create entries). -/
def idx (o : ObsIndex) (h t : TimeCamId) : List LandmarkId :=
  match find o h with
  | none => []
  | some inner => (find inner t).getD []

/-- Modelled from the spec: the body of "adds the landmark id to
`observations[host_kf_id][target]`"; `operator[]` creates the missing inner
containers and `std::set::insert` ignores an id already present. -/
def indexInsert (o : ObsIndex) (h t : TimeCamId) (lm_id : LandmarkId) : ObsIndex :=
  let inner := (find o h).getD []
  let ids := (find inner t).getD []
  upsert o h (upsert inner t (if lm_id ∈ ids then ids else ids ++ [lm_id]))

/-- Modelled from the spec: the body of "removes `id` from
`observations[host_kf_id][t]`, pruning now-empty containers". -/
def indexErase (o : ObsIndex) (h t : TimeCamId) (lm_id : LandmarkId) : ObsIndex :=
  match find o h with
  | none => o
  | some inner =>
    match find inner t with
    | none => o
    | some ids =>
      let ids1 := ids.filter (fun i => decide (i ≠ lm_id))
      if ids1.isEmpty then
        let inner1 := erase inner t
        if inner1.isEmpty then erase o h else upsert o h inner1
      else upsert o h (upsert inner t ids1)

/-- Modelled from the spec: the body of the private `removeLandmarkHelper`,
the path shared by `removeLandmark` and the cascade: "erases the landmark from
`kpts`; for every `t` the landmark was observed in, removes `id` from
`observations[host_kf_id][t]`, pruning emptied containers". -/
def LandmarkDatabase.removeLandmarkHelper {S : Type} (db : LandmarkDatabase S)
    (lm_id : LandmarkId) (lm : Landmark S) : LandmarkDatabase S :=
  { kpts := erase db.kpts lm_id,
    observations :=
      (keys lm.obs).foldl (fun o t => indexErase o lm.host_kf_id t lm_id) db.observations }

/-- Modelled from the spec: the body of the private
`removeLandmarkObservationHelper`, one step of `removeObservations`: "erases
`obs[t]` from the landmark and removes `id` from
`observations[host_kf_id][t]`, pruning now-empty containers". -/
def LandmarkDatabase.removeLandmarkObservationHelper {S : Type} (db : LandmarkDatabase S)
    (lm_id : LandmarkId) (t : TimeCamId) : LandmarkDatabase S :=
  match find db.kpts lm_id with
  | none => db
  | some lm =>
    { kpts := modify db.kpts lm_id (fun l => { l with obs := erase l.obs t }),
      observations := indexErase db.observations lm.host_kf_id t lm_id }

/-- Modelled from the spec: the cascade rule, "if the landmark's remaining
observation count drops below `min_num_obs`, the landmark is cascade-removed
via the same path as `removeLandmark`". -/
def LandmarkDatabase.cascade {S : Type} (db : LandmarkDatabase S) (lm_id : LandmarkId) :
    LandmarkDatabase S :=
  match find db.kpts lm_id with
  | none => db
  | some lm => if lm.obs.length < min_num_obs then db.removeLandmarkHelper lm_id lm else db

/-- Modelled from the spec: the body of `addLandmark`: "inserts a new landmark
keyed by `id`; precondition: `id` not already present (fails with a
DuplicateKey condition); updates the reverse index for every initial
observation in `landmark.obs`". -/
def LandmarkDatabase.addLandmark {S : Type} (db : LandmarkDatabase S) (lm_id : LandmarkId)
    (pos : Landmark S) : Except DbError (LandmarkDatabase S) :=
  match find db.kpts lm_id with
  | some _ => .error .DuplicateKey
  | none =>
    .ok { kpts := upsert db.kpts lm_id pos,
          observations :=
            (keys pos.obs).foldl (fun o t => indexInsert o pos.host_kf_id t lm_id)
              db.observations }

/-- Modelled from the spec: the body of `addObservation`: "looks up the
landmark by `observation.kpt_id`; fails with NotFound if absent; inserts or
overwrites `obs[target] = observation.pos` on the landmark and adds the
landmark id to `observations[host_kf_id][target]`". -/
def LandmarkDatabase.addObservation {S : Type} (db : LandmarkDatabase S)
    (tcid_target : TimeCamId) (o : KeypointObservation S) :
    Except DbError (LandmarkDatabase S) :=
  match find db.kpts o.kpt_id with
  | none => .error .NotFound
  | some lm =>
    .ok { kpts := modify db.kpts o.kpt_id
                    (fun l => { l with obs := upsert l.obs tcid_target o.pos }),
          observations := indexInsert db.observations lm.host_kf_id tcid_target o.kpt_id }

/-- Modelled from the spec: the body of `removeLandmark`: "fails with NotFound
if absent", otherwise the shared removal path. -/
def LandmarkDatabase.removeLandmark {S : Type} (db : LandmarkDatabase S) (lm_id : LandmarkId) :
    Except DbError (LandmarkDatabase S) :=
  match find db.kpts lm_id with
  | none => .error .NotFound
  | some lm => .ok (db.removeLandmarkHelper lm_id lm)

/-- Modelled from the spec: the body of `removeObservations`: one
`removeLandmarkObservationHelper` step "for each `t` in `targets`", then the
cascade rule.  A lookup of a missing id is NotFound (§7: "the database never
silently ignores an operation on a nonexistent key"). -/
def LandmarkDatabase.removeObservations {S : Type} (db : LandmarkDatabase S)
    (lm_id : LandmarkId) (obs : List TimeCamId) : Except DbError (LandmarkDatabase S) :=
  match find db.kpts lm_id with
  | none => .error .NotFound
  | some _ =>
    .ok ((obs.foldl (fun d t => d.removeLandmarkObservationHelper lm_id t) db).cascade lm_id)

/-- Modelled from the spec: the treatment of one landmark by `removeFrame` and
`removeKeyframes`.  A landmark whose host view satisfies `hostGone` "is removed
outright"; otherwise its observations in the views satisfying `targetGone` are
removed with the `removeObservations` cascade rule.  With `affectedOnly` the
cascade rule is applied only to a landmark that has such an observation
(`removeFrame`: "a bulk `removeObservations` across all affected landmarks"). -/
def LandmarkDatabase.sweepStep {S : Type} (hostGone targetGone : TimeCamId → Bool)
    (affectedOnly : Bool) (db : LandmarkDatabase S) (lm_id : LandmarkId) : LandmarkDatabase S :=
  match find db.kpts lm_id with
  | none => db
  | some lm =>
    if hostGone lm.host_kf_id then db.removeLandmarkHelper lm_id lm
    else
      let ts := (keys lm.obs).filter targetGone
      if affectedOnly && ts.isEmpty then db
      else (ts.foldl (fun d t => d.removeLandmarkObservationHelper lm_id t) db).cascade lm_id

/-- What `sweepStep` makes of one stored landmark: `none` when the landmark is
removed, otherwise the landmark left in `kpts`. -/
def sweepLandmark {S : Type} (hostGone targetGone : TimeCamId → Bool) (affectedOnly : Bool)
    (lm : Landmark S) : Option (Landmark S) :=
  if hostGone lm.host_kf_id then none
  else
    let ts := (keys lm.obs).filter targetGone
    if affectedOnly && ts.isEmpty then some lm
    else
      let lm1 : Landmark S := { lm with obs := ts.foldl erase lm.obs }
      if lm1.obs.length < min_num_obs then none else some lm1

/-- Modelled from the spec: the loop of `removeFrame` and `removeKeyframes`
over the landmarks of `kpts`. -/
def LandmarkDatabase.sweep {S : Type} (hostGone targetGone : TimeCamId → Bool)
    (affectedOnly : Bool) (db : LandmarkDatabase S) : LandmarkDatabase S :=
  (keys db.kpts).foldl (LandmarkDatabase.sweepStep hostGone targetGone affectedOnly) db

/-- Modelled from the spec: the body of `removeFrame`: "removes `frame`
wherever it appears as a target inside any landmark's `obs` (treating it like a
bulk `removeObservations` across all affected landmarks, with the same cascade
rule), and removes `frame` as a host: any landmark hosted there is fully
removed". -/
def LandmarkDatabase.removeFrame {S : Type} (db : LandmarkDatabase S) (frame : FrameId) :
    LandmarkDatabase S :=
  db.sweep (fun h => decide (h.frame_id = frame)) (fun t => decide (t.frame_id = frame)) true

/-- Modelled from the spec: the body of `removeKeyframes`: "landmarks hosted by
any frame in `kfs_to_marg` are removed outright (no re-hosting); observations
whose target frame lies in any of the three sets are removed via the
`removeObservations` cascade rule; any landmark whose observation count then
falls under `min_num_obs` is removed". -/
def LandmarkDatabase.removeKeyframes {S : Type} (db : LandmarkDatabase S)
    (kfs_to_marg poses_to_marg states_to_marg_all : List FrameId) : LandmarkDatabase S :=
  db.sweep (fun h => decide (h.frame_id ∈ kfs_to_marg))
    (fun t => decide (t.frame_id ∈ kfs_to_marg) || decide (t.frame_id ∈ poses_to_marg)
      || decide (t.frame_id ∈ states_to_marg_all)) false

/-! ## Sequences of calls -/

/-- One call of a mutating operation of the database. -/
inductive Call (S : Type) where
  | addLandmark (lm_id : LandmarkId) (pos : Landmark S)
  | addObservation (tcid_target : TimeCamId) (o : KeypointObservation S)
  | removeObservations (lm_id : LandmarkId) (obs : List TimeCamId)
  | removeLandmark (lm_id : LandmarkId)
  | removeFrame (frame : FrameId)
  | removeKeyframes (kfs_to_marg poses_to_marg states_to_marg_all : List FrameId)

/-- Result of one call. -/
def LandmarkDatabase.call {S : Type} (db : LandmarkDatabase S) :
    Call S → Except DbError (LandmarkDatabase S)
  | .addLandmark lm_id pos => db.addLandmark lm_id pos
  | .addObservation t o => db.addObservation t o
  | .removeObservations lm_id obs => db.removeObservations lm_id obs
  | .removeLandmark lm_id => db.removeLandmark lm_id
  | .removeFrame frame => .ok (db.removeFrame frame)
  | .removeKeyframes k p s => .ok (db.removeKeyframes k p s)

/-- State after one call; a call that fails leaves the database as it was. -/
def LandmarkDatabase.step {S : Type} (db : LandmarkDatabase S) (c : Call S) :
    LandmarkDatabase S :=
  match db.call c with
  | .ok d => d
  | .error _ => db

/-- State after a sequence of calls, first to last. -/
def LandmarkDatabase.run {S : Type} (db : LandmarkDatabase S) (cs : List (Call S)) :
    LandmarkDatabase S :=
  cs.foldl LandmarkDatabase.step db

/-- No container of the reverse index holds a key twice, and no id set holds
an id twice. -/
def IndexWF (o : ObsIndex) : Prop :=
  (keys o).Nodup ∧ ∀ e ∈ o, (keys e.2).Nodup ∧ ∀ e1 ∈ e.2, e1.2.Nodup

/-- The reverse index is pruned: no empty inner map and no empty id set. -/
def Pruned (o : ObsIndex) : Prop :=
  ∀ e ∈ o, e.2 ≠ [] ∧ ∀ e1 ∈ e.2, e1.2 ≠ []

/-- Neither `kpts` nor a container of the reverse index holds a key twice, and
no id set holds an id twice. -/
def WF {S : Type} (db : LandmarkDatabase S) : Prop :=
  (keys db.kpts).Nodup ∧ IndexWF db.observations

/-- Invariant 1: every id in `observations[h][t]` is a key of `kpts` whose
landmark has `host_kf_id == h` and `t` in `obs`. -/
def Inv1 {S : Type} (db : LandmarkDatabase S) : Prop :=
  ∀ h t lm_id, lm_id ∈ idx db.observations h t →
    ∃ lm, find db.kpts lm_id = some lm ∧ lm.host_kf_id = h ∧ t ∈ keys lm.obs

/-- Invariant 2: every entry `t` of a landmark's `obs` has the landmark's id in
`observations[host_kf_id][t]`. -/
def Inv2 {S : Type} (db : LandmarkDatabase S) : Prop :=
  ∀ lm_id lm t, find db.kpts lm_id = some lm → t ∈ keys lm.obs →
    lm_id ∈ idx db.observations lm.host_kf_id t

/-- Invariant 3: `observations` contains no empty inner map and no empty id
set. -/
def Inv3 {S : Type} (db : LandmarkDatabase S) : Prop :=
  Pruned db.observations

/-- The cross-index invariants 1 to 3. -/
def Consistent {S : Type} (db : LandmarkDatabase S) : Prop :=
  Inv1 db ∧ Inv2 db ∧ Inv3 db

/-- The id occurs in some id set of the reverse index. -/
def occursInIndex (o : ObsIndex) (lm_id : LandmarkId) : Prop :=
  ∃ e ∈ o, ∃ e1 ∈ e.2, lm_id ∈ e1.2

/-! ## Estimator skeleton (`vio_estimator.h`) -/

/-- A `tbb::concurrent_bounded_queue<T>` as seen by the one thread that uses
it: the capacity (`none` for the unbounded default) and the queued items,
oldest first. -/
structure BoundedQueue (T : Type) where
  capacity : Option Nat
  items : List T

/-- A default-constructed queue. -/
def BoundedQueue.new {T : Type} : BoundedQueue T := { capacity := none, items := [] }

/-- Embeds `set_capacity(n)`. -/
def BoundedQueue.set_capacity {T : Type} (q : BoundedQueue T) (n : Nat) : BoundedQueue T :=
  { q with capacity := some n }

/-- Embeds `empty()`. -/
def BoundedQueue.empty {T : Type} (q : BoundedQueue T) : Bool := q.items.isEmpty

/-- Embeds `pop(d)`: the oldest item and the rest; on an empty queue the call
blocks, which without a producer never returns (`none`). -/
def BoundedQueue.pop {T : Type} (q : BoundedQueue T) : Option (T × BoundedQueue T) :=
  match q.items with
  | [] => none
  | d :: r => some (d, { q with items := r })

/-- The members of `VioEstimatorBase` that its constructor and
`drain_input_queues` touch; `V` and `I` are the element types of the two input
queues. -/
structure VioEstimatorBase (V I : Type) where
  last_processed_t_ns : Int
  finished : Bool
  vision_data_queue : BoundedQueue V
  imu_data_queue : BoundedQueue I

/-- The loop `while (!q.empty()) { T d; q.pop(d); }` run for at most `fuel`
evaluations of its condition: the items popped (each one discarded by the
loop), oldest first, and the queue left; `none` when the fuel runs out or a
`pop` blocks. -/
def drainLoop {T : Type} : Nat → BoundedQueue T → Option (List T × BoundedQueue T)
  | 0, _ => none
  | fuel + 1, q =>
    if q.empty then some ([], q)
    else
      match q.pop with
      | none => none
      | some (d, q1) =>
        match drainLoop fuel q1 with
        | none => none
        | some (ds, q2) => some (d :: ds, q2)

/-- Embeds `VioEstimatorBase::drain_input_queues`, each loop with `fuel`: the
items popped from the IMU queue, those popped from the vision queue, and the
estimator state left. -/
def VioEstimatorBase.drain_input_queues {V I : Type} (fuel : Nat) (e : VioEstimatorBase V I) :
    Option (List I × List V × VioEstimatorBase V I) :=
  match drainLoop fuel e.imu_data_queue with
  | none => none
  | some (is, qi) =>
    match drainLoop fuel { e with imu_data_queue := qi }.vision_data_queue with
    | none => none
    | some (vs, qv) => some (is, vs, { e with imu_data_queue := qi, vision_data_queue := qv })

set_option linter.dupNamespace false in
/-- The constructor `VioEstimatorBase()`:
`vision_data_queue.set_capacity(10); imu_data_queue.set_capacity(300);
last_processed_t_ns = 0; finished = false;`. -/
def VioEstimatorBase.VioEstimatorBase (V I : Type) : Basalt.VioEstimatorBase V I :=
  { vision_data_queue := BoundedQueue.new.set_capacity 10,
    imu_data_queue := BoundedQueue.new.set_capacity 300,
    last_processed_t_ns := 0,
    finished := false }

/-! ## Example data -/

/-- The view of camera 0 at a frame. -/
def exView (f : FrameId) : TimeCamId := { frame_id := f, cam_id := 0 }

/-- A landmark over integer scalars, hosted at `host` and observed in the
frames `targets`, whose snapshot fields differ from its position parameters. -/
def exLandmark (host : FrameId) (targets : List FrameId) (i : LandmarkId) : Landmark Int :=
  { direction := (1, 2), inv_dist := 3, host_kf_id := exView host,
    obs := targets.map (fun f => (exView f, (0, 0))), id := i,
    backup_direction := (0, 0), backup_inv_dist := 0 }

/-- The calls that build the window of the window-slide example: L1 hosted at
frame 1 and observed in frames 2 and 3, L2 hosted at frame 2 and observed in
frame 1. -/
def exWindowCalls : List (Call Int) :=
  [.addLandmark 1 (exLandmark 1 [2, 3] 1), .addLandmark 2 (exLandmark 2 [1] 2)]

/-- The window of the window-slide example. -/
def exWindow : LandmarkDatabase Int := LandmarkDatabase.empty.run exWindowCalls

/-- A database with one landmark that has three observations. -/
def exThree : LandmarkDatabase Int :=
  LandmarkDatabase.empty.run [.addLandmark 7 (exLandmark 1 [2, 3, 4] 7)]

/-- An estimator with two queued IMU samples and one queued vision result. -/
def exEstimator : VioEstimatorBase Nat Nat :=
  { last_processed_t_ns := 42, finished := true,
    vision_data_queue := { capacity := some 10, items := [7] },
    imu_data_queue := { capacity := some 300, items := [1, 2] } }

/-! # Theorems -/

section Assoc
variable {K V : Type} [DecidableEq K]

theorem find_cons (k' k : K) (v : V) (r : List (K × V)) :
    find ((k', v) :: r) k = if k' = k then some v else find r k := rfl

theorem find_eq_none_iff (m : List (K × V)) (k : K) : find m k = none ↔ k ∉ keys m := by
  induction m with
  | nil => simp [find, keys]
  | cons a r ih =>
    obtain ⟨k', v⟩ := a
    by_cases h : k' = k
    · simp [find, keys, h]
    · have h2 : ¬ k = k' := fun e => h e.symm
      simp [find, keys, h, h2]
      simpa [keys] using ih

theorem mem_of_find {m : List (K × V)} {k : K} {v : V} (h : find m k = some v) :
    (k, v) ∈ m := by
  induction m with
  | nil => simp [find] at h
  | cons a r ih =>
    obtain ⟨k', v'⟩ := a
    by_cases e : k' = k
    · simp [find, e] at h
      subst h; subst e
      exact List.mem_cons_self _ _
    · simp [find, e] at h
      exact List.mem_cons_of_mem _ (ih h)

theorem find_of_mem {m : List (K × V)} (hn : (keys m).Nodup) {k : K} {v : V}
    (h : (k, v) ∈ m) : find m k = some v := by
  induction m with
  | nil => cases h
  | cons a r ih =>
    obtain ⟨k', v'⟩ := a
    simp only [keys, List.map_cons, List.nodup_cons] at hn
    rcases List.mem_cons.1 h with e | e
    · cases e
      simp [find]
    · have hk : k ∈ keys r := List.mem_map.2 ⟨(k, v), e, rfl⟩
      have hne : k' ≠ k := fun e2 => hn.1 (e2 ▸ hk)
      simp only [find, hne, if_false]
      exact ih hn.2 e

theorem eq_nil_of_find_none {m : List (K × V)} (h : ∀ k, find m k = none) : m = [] := by
  cases m with
  | nil => rfl
  | cons a r =>
    have := h a.1
    simp [find] at this

/-! ### `erase` -/

theorem mem_erase {m : List (K × V)} {k : K} {e : K × V} :
    e ∈ erase m k ↔ e ∈ m ∧ e.1 ≠ k := by
  simp [erase, List.mem_filter]

theorem keys_erase (m : List (K × V)) (k : K) :
    keys (erase m k) = (keys m).filter (fun x => decide (x ≠ k)) := by
  induction m with
  | nil => rfl
  | cons a r ih =>
    by_cases h : a.1 = k
    · simp [erase, keys, List.filter_cons, h] at ih ⊢
      exact ih
    · simp [erase, keys, List.filter_cons, h] at ih ⊢
      exact ih

theorem mem_keys_erase {m : List (K × V)} {k x : K} :
    x ∈ keys (erase m k) ↔ x ∈ keys m ∧ x ≠ k := by
  simp [keys_erase, List.mem_filter]

theorem nodup_keys_erase {m : List (K × V)} (h : (keys m).Nodup) (k : K) :
    (keys (erase m k)).Nodup := by
  rw [keys_erase]
  exact h.filter _

theorem find_erase (m : List (K × V)) (k x : K) :
    find (erase m k) x = if x = k then none else find m x := by
  induction m with
  | nil => simp [erase, find]
  | cons a r ih =>
    obtain ⟨k', v⟩ := a
    by_cases h : k' = k
    · subst h
      have : erase ((k', v) :: r) k' = erase r k' := by simp [erase]
      rw [this, ih]
      by_cases hx : x = k'
      · simp [hx]
      · have : ¬ k' = x := fun e => hx e.symm
        simp [hx, find, this]
    · have : erase ((k', v) :: r) k = (k', v) :: erase r k := by simp [erase, h]
      rw [this]
      simp only [find, ih]
      by_cases hx : k' = x
      · subst hx
        simp [h]
      · simp [hx]

/-! ### `upsert` -/

theorem find_upsert (m : List (K × V)) (k : K) (v : V) (x : K) :
    find (upsert m k v) x = if x = k then some v else find m x := by
  induction m with
  | nil =>
    by_cases hx : x = k
    · simp [upsert, find, hx]
    · have : ¬ k = x := fun e => hx e.symm
      simp [upsert, find, hx, this]
  | cons a r ih =>
    obtain ⟨k', v'⟩ := a
    by_cases h : k' = k
    · subst h
      by_cases hx : x = k'
      · simp [upsert, find, hx]
      · have : ¬ k' = x := fun e => hx e.symm
        simp [upsert, find, hx, this]
    · simp only [upsert, h, if_false, find, ih]
      by_cases hx : k' = x
      · subst hx
        simp [h]
      · simp [hx]

theorem mem_upsert {m : List (K × V)} {k : K} {v : V} {e : K × V}
    (h : e ∈ upsert m k v) : e = (k, v) ∨ e ∈ m := by
  induction m with
  | nil =>
    simp [upsert] at h
    exact Or.inl h
  | cons a r ih =>
    obtain ⟨k', v'⟩ := a
    by_cases hk : k' = k
    · simp only [upsert, hk, if_true, List.mem_cons] at h
      rcases h with h | h
      · exact Or.inl h
      · exact Or.inr (List.mem_cons_of_mem _ h)
    · simp only [upsert, hk, if_false, List.mem_cons] at h
      rcases h with h | h
      · exact Or.inr (h ▸ List.mem_cons_self _ _)
      · rcases ih h with h2 | h2
        · exact Or.inl h2
        · exact Or.inr (List.mem_cons_of_mem _ h2)

theorem upsert_ne_nil (m : List (K × V)) (k : K) (v : V) : upsert m k v ≠ [] := by
  cases m with
  | nil => simp [upsert]
  | cons a r =>
    obtain ⟨k', v'⟩ := a
    by_cases hk : k' = k <;> simp [upsert, hk]

theorem mem_keys_upsert {m : List (K × V)} {k : K} {v : V} {x : K} :
    x ∈ keys (upsert m k v) ↔ x = k ∨ x ∈ keys m := by
  induction m with
  | nil => simp [upsert, keys]
  | cons a r ih =>
    obtain ⟨k', v'⟩ := a
    by_cases hk : k' = k
    · subst hk
      simp [upsert, keys]
    · simp only [upsert, hk, if_false, keys, List.map_cons, List.mem_cons]
      simp only [keys] at ih
      rw [ih]
      tauto

theorem nodup_keys_upsert {m : List (K × V)} (h : (keys m).Nodup) (k : K) (v : V) :
    (keys (upsert m k v)).Nodup := by
  induction m with
  | nil => simp [upsert, keys]
  | cons a r ih =>
    obtain ⟨k', v'⟩ := a
    simp only [keys, List.map_cons, List.nodup_cons] at h
    by_cases hk : k' = k
    · subst hk
      simp only [upsert, if_true, keys, List.map_cons, List.nodup_cons]
      exact h
    · simp only [upsert, hk, if_false, keys, List.map_cons, List.nodup_cons]
      refine ⟨?_, ih h.2⟩
      intro hm
      have := (mem_keys_upsert (m := r) (k := k) (v := v) (x := k')).1 hm
      rcases this with e | e
      · exact hk e
      · exact h.1 e

theorem keys_modify (m : List (K × V)) (k : K) (f : V → V) : keys (modify m k f) = keys m := by
  induction m with
  | nil => rfl
  | cons a r ih =>
    simp only [modify, keys, List.map_cons, List.map_map] at ih ⊢
    by_cases h : a.1 = k
    · simp [h]
      intro a b _
      by_cases h2 : a = k <;> simp [h2]
    · simp [h]
      intro a b _
      by_cases h2 : a = k <;> simp [h2]

theorem modify_cons_eq (k' : K) (v : V) (r : List (K × V)) (f : V → V) :
    modify ((k', v) :: r) k' f = (k', f v) :: modify r k' f := by
  simp [modify]

theorem modify_cons_ne {k' k : K} (h : k' ≠ k) (v : V) (r : List (K × V)) (f : V → V) :
    modify ((k', v) :: r) k f = (k', v) :: modify r k f := by
  simp [modify, h]

theorem find_modify (m : List (K × V)) (k : K) (f : V → V) (x : K) :
    find (modify m k f) x = if x = k then (find m x).map f else find m x := by
  induction m with
  | nil => simp [modify, find]
  | cons a r ih =>
    obtain ⟨k', v⟩ := a
    by_cases hk : k' = k
    · subst hk
      rw [modify_cons_eq, find_cons, find_cons, ih]
      by_cases hx : k' = x
      · subst hx
        simp
      · have : ¬ x = k' := fun e => hx e.symm
        simp [hx, this]
    · rw [modify_cons_ne hk, find_cons, find_cons, ih]
      by_cases hx : k' = x
      · subst hx
        simp [hk]
      · simp [hx]

end Assoc

/-! ### The reverse index -/

theorem idx_def (o : ObsIndex) (h t : TimeCamId) :
    idx o h t = match find o h with
      | none => []
      | some inner => (find inner t).getD [] := rfl

theorem mem_idx_iff {o : ObsIndex} {h t : TimeCamId} {x : LandmarkId} :
    x ∈ idx o h t ↔ ∃ inner ids, find o h = some inner ∧ find inner t = some ids ∧ x ∈ ids := by
  rw [idx_def]
  cases h1 : find o h with
  | none => simp
  | some inner =>
    cases h2 : find inner t with
    | none => simp [h2]
    | some ids => simp [h2]

theorem mem_idx_indexInsert (o : ObsIndex) (h t : TimeCamId) (i : LandmarkId)
    (h' t' : TimeCamId) (x : LandmarkId) :
    x ∈ idx (indexInsert o h t i) h' t' ↔ x ∈ idx o h' t' ∨ (h' = h ∧ t' = t ∧ x = i) := by
  rw [idx_def, idx_def]
  simp only [indexInsert, find_upsert]
  by_cases hh : h' = h
  · subst hh
    simp only [if_true, find_upsert]
    by_cases ht : t' = t
    · subst ht
      cases h1 : find o h' with
      | none => simp [find]
      | some inner =>
        cases h2 : find inner t' with
        | none => simp [h2]
        | some ids =>
          by_cases hm : i ∈ ids
          · simp only [h2, Option.getD_some, if_pos hm]
            constructor
            · exact fun hx => Or.inl hx
            · rintro (hx | ⟨-, -, rfl⟩)
              · exact hx
              · exact hm
          · simp [h2, hm]
    · cases h1 : find o h' with
      | none => simp [find, ht]
      | some inner => simp [ht]
  · simp [hh]

theorem isEmpty_iff_nil {α : Type} (l : List α) : l.isEmpty = true ↔ l = [] := by
  cases l <;> simp

theorem mem_idx_indexErase (o : ObsIndex) (h t : TimeCamId) (i : LandmarkId)
    (h' t' : TimeCamId) (x : LandmarkId) :
    x ∈ idx (indexErase o h t i) h' t' ↔ x ∈ idx o h' t' ∧ ¬ (h' = h ∧ t' = t ∧ x = i) := by
  unfold indexErase
  cases h1 : find o h with
  | none =>
    simp only
    constructor
    · intro hx
      refine ⟨hx, ?_⟩
      rintro ⟨rfl, -, -⟩
      rw [idx_def, h1] at hx
      cases hx
    · exact fun hx => hx.1
  | some inner =>
    simp only
    cases h2 : find inner t with
    | none =>
      simp only
      constructor
      · intro hx
        refine ⟨hx, ?_⟩
        rintro ⟨rfl, rfl, -⟩
        rw [idx_def, h1] at hx
        simp [h2] at hx
      · exact fun hx => hx.1
    | some ids =>
      simp only
      by_cases he : (ids.filter (fun j => decide (j ≠ i))).isEmpty = true
      · rw [if_pos he]
        have hnil := (isEmpty_iff_nil _).1 he
        have hall : ∀ j ∈ ids, j = i := by
          intro j hj
          by_contra hne
          have : j ∈ ids.filter (fun j => decide (j ≠ i)) := by
            simp [List.mem_filter, hj, hne]
          rw [hnil] at this
          cases this
        by_cases he2 : (erase inner t).isEmpty = true
        · rw [if_pos he2]
          have hnil2 := (isEmpty_iff_nil _).1 he2
          rw [idx_def, idx_def, find_erase]
          by_cases hh : h' = h
          · subst hh
            simp only [if_true, h1]
            by_cases ht : t' = t
            · subst ht
              simp only [h2, Option.getD_some]
              constructor
              · intro hx; cases hx
              · rintro ⟨hx, hn⟩
                exact (hn ⟨trivial, trivial, hall x hx⟩).elim
            · have : find inner t' = none := by
                have := find_erase inner t t'
                rw [hnil2] at this
                simp [find, ht] at this
                exact this.symm
              simp [this]
          · simp [hh]
        · rw [if_neg he2]
          rw [idx_def, idx_def, find_upsert]
          by_cases hh : h' = h
          · subst hh
            simp only [if_true, h1, find_erase]
            by_cases ht : t' = t
            · subst ht
              simp only [if_true, h2, Option.getD_some, Option.getD_none]
              constructor
              · intro hx; cases hx
              · rintro ⟨hx, hn⟩
                exact (hn ⟨trivial, trivial, hall x hx⟩).elim
            · simp [ht]
          · simp [hh]
      · rw [if_neg he]
        rw [idx_def, idx_def, find_upsert]
        by_cases hh : h' = h
        · subst hh
          simp only [if_true, h1, find_upsert]
          by_cases ht : t' = t
          · subst ht
            simp [h2, List.mem_filter]
          · simp [ht]
        · simp [hh]

theorem pruned_nil : Pruned [] := by
  intro e he
  cases he

theorem indexWF_nil : IndexWF [] := by
  refine ⟨by simp [keys], ?_⟩
  intro e he
  cases he

theorem pruned_upsert {o : ObsIndex} (hp : Pruned o) (h : TimeCamId)
    {inner : List (TimeCamId × List LandmarkId)} (hne : inner ≠ [])
    (hin : ∀ e1 ∈ inner, e1.2 ≠ []) : Pruned (upsert o h inner) := by
  intro e he
  rcases mem_upsert he with rfl | he
  · exact ⟨hne, hin⟩
  · exact hp e he

theorem pruned_erase {o : ObsIndex} (hp : Pruned o) (h : TimeCamId) : Pruned (erase o h) := by
  intro e he
  exact hp e (mem_erase.1 he).1

theorem indexWF_upsert {o : ObsIndex} (hw : IndexWF o) (h : TimeCamId)
    {inner : List (TimeCamId × List LandmarkId)} (hk : (keys inner).Nodup)
    (hin : ∀ e1 ∈ inner, e1.2.Nodup) : IndexWF (upsert o h inner) := by
  refine ⟨nodup_keys_upsert hw.1 _ _, ?_⟩
  intro e he
  rcases mem_upsert he with rfl | he
  · exact ⟨hk, hin⟩
  · exact hw.2 e he

theorem indexWF_erase {o : ObsIndex} (hw : IndexWF o) (h : TimeCamId) : IndexWF (erase o h) := by
  refine ⟨nodup_keys_erase hw.1 _, ?_⟩
  intro e he
  exact hw.2 e (mem_erase.1 he).1

theorem pruned_indexInsert {o : ObsIndex} (hp : Pruned o) (h t : TimeCamId) (i : LandmarkId) :
    Pruned (indexInsert o h t i) := by
  unfold indexInsert
  apply pruned_upsert hp
  · exact upsert_ne_nil _ _ _
  · intro e1 he1
    rcases mem_upsert he1 with rfl | he1
    · simp only
      split
      · rename_i hm
        exact List.ne_nil_of_mem hm
      · simp
    · cases h1 : find o h with
      | none =>
        rw [h1] at he1
        cases he1
      | some inner =>
        rw [h1] at he1
        exact (hp _ (mem_of_find h1)).2 e1 he1

theorem indexWF_indexInsert {o : ObsIndex} (hw : IndexWF o) (h t : TimeCamId)
    (i : LandmarkId) : IndexWF (indexInsert o h t i) := by
  unfold indexInsert
  have hinner : (keys ((find o h).getD [])).Nodup ∧ ∀ e1 ∈ (find o h).getD [], e1.2.Nodup := by
    cases h1 : find o h with
    | none => simp [keys]
    | some inner => exact hw.2 _ (mem_of_find h1)
  apply indexWF_upsert hw
  · exact nodup_keys_upsert hinner.1 _ _
  · intro e1 he1
    rcases mem_upsert he1 with rfl | he1
    · simp only
      have hids : ((find ((find o h).getD []) t).getD []).Nodup := by
        cases h2 : find ((find o h).getD []) t with
        | none => simp
        | some ids => exact hinner.2 _ (mem_of_find h2)
      split
      · exact hids
      · rename_i hm
        exact List.Nodup.append hids (List.nodup_singleton _) (by simpa using hm)
    · exact hinner.2 e1 he1

theorem pruned_indexErase {o : ObsIndex} (hp : Pruned o) (h t : TimeCamId) (i : LandmarkId) :
    Pruned (indexErase o h t i) := by
  unfold indexErase
  cases h1 : find o h with
  | none => exact hp
  | some inner =>
    simp only
    cases h2 : find inner t with
    | none => exact hp
    | some ids =>
      simp only
      have hin := (hp _ (mem_of_find h1)).2
      split
      · split
        · exact pruned_erase hp _
        · rename_i he2
          apply pruned_upsert hp
          · intro hnil
            exact he2 ((isEmpty_iff_nil _).2 hnil)
          · intro e1 he1
            exact hin e1 (mem_erase.1 he1).1
      · rename_i he
        apply pruned_upsert hp
        · exact upsert_ne_nil _ _ _
        · intro e1 he1
          rcases mem_upsert he1 with rfl | he1
          · intro hnil
            exact he ((isEmpty_iff_nil _).2 hnil)
          · exact hin e1 he1

theorem indexWF_indexErase {o : ObsIndex} (hw : IndexWF o) (h t : TimeCamId)
    (i : LandmarkId) : IndexWF (indexErase o h t i) := by
  unfold indexErase
  cases h1 : find o h with
  | none => exact hw
  | some inner =>
    simp only
    cases h2 : find inner t with
    | none => exact hw
    | some ids =>
      simp only
      have hin := hw.2 _ (mem_of_find h1)
      split
      · split
        · exact indexWF_erase hw _
        · apply indexWF_upsert hw
          · exact nodup_keys_erase hin.1 _
          · intro e1 he1
            exact hin.2 e1 (mem_erase.1 he1).1
      · apply indexWF_upsert hw
        · exact nodup_keys_upsert hin.1 _ _
        · intro e1 he1
          rcases mem_upsert he1 with rfl | he1
          · exact (hin.2 _ (mem_of_find h2)).filter _
          · exact hin.2 e1 he1

/-! ### Folds over a list of target views -/

theorem mem_idx_foldl_indexInsert (ts : List TimeCamId) (o : ObsIndex) (h : TimeCamId)
    (i : LandmarkId) (h' t' : TimeCamId) (x : LandmarkId) :
    x ∈ idx (ts.foldl (fun o t => indexInsert o h t i) o) h' t'
      ↔ x ∈ idx o h' t' ∨ (h' = h ∧ t' ∈ ts ∧ x = i) := by
  induction ts generalizing o with
  | nil => simp
  | cons t ts ih =>
    rw [List.foldl_cons, ih, mem_idx_indexInsert]
    simp only [List.mem_cons]
    constructor
    · rintro ((hx | ⟨a, b, c⟩) | ⟨a, b, c⟩)
      · exact Or.inl hx
      · exact Or.inr ⟨a, Or.inl b, c⟩
      · exact Or.inr ⟨a, Or.inr b, c⟩
    · rintro (hx | ⟨a, b | b, c⟩)
      · exact Or.inl (Or.inl hx)
      · exact Or.inl (Or.inr ⟨a, b, c⟩)
      · exact Or.inr ⟨a, b, c⟩

theorem mem_idx_foldl_indexErase (ts : List TimeCamId) (o : ObsIndex) (h : TimeCamId)
    (i : LandmarkId) (h' t' : TimeCamId) (x : LandmarkId) :
    x ∈ idx (ts.foldl (fun o t => indexErase o h t i) o) h' t'
      ↔ x ∈ idx o h' t' ∧ ¬ (h' = h ∧ t' ∈ ts ∧ x = i) := by
  induction ts generalizing o with
  | nil => simp
  | cons t ts ih =>
    rw [List.foldl_cons, ih, mem_idx_indexErase]
    simp only [List.mem_cons]
    constructor
    · rintro ⟨⟨hx, h1⟩, h2⟩
      refine ⟨hx, ?_⟩
      rintro ⟨a, b | b, c⟩
      · exact h1 ⟨a, b, c⟩
      · exact h2 ⟨a, b, c⟩
    · rintro ⟨hx, h1⟩
      exact ⟨⟨hx, fun ⟨a, b, c⟩ => h1 ⟨a, Or.inl b, c⟩⟩, fun ⟨a, b, c⟩ => h1 ⟨a, Or.inr b, c⟩⟩

theorem pruned_foldl_indexInsert (ts : List TimeCamId) {o : ObsIndex} (hp : Pruned o)
    (h : TimeCamId) (i : LandmarkId) :
    Pruned (ts.foldl (fun o t => indexInsert o h t i) o) := by
  induction ts generalizing o with
  | nil => exact hp
  | cons t ts ih => exact ih (pruned_indexInsert hp h t i)

theorem pruned_foldl_indexErase (ts : List TimeCamId) {o : ObsIndex} (hp : Pruned o)
    (h : TimeCamId) (i : LandmarkId) :
    Pruned (ts.foldl (fun o t => indexErase o h t i) o) := by
  induction ts generalizing o with
  | nil => exact hp
  | cons t ts ih => exact ih (pruned_indexErase hp h t i)

theorem indexWF_foldl_indexInsert (ts : List TimeCamId) {o : ObsIndex} (hw : IndexWF o)
    (h : TimeCamId) (i : LandmarkId) :
    IndexWF (ts.foldl (fun o t => indexInsert o h t i) o) := by
  induction ts generalizing o with
  | nil => exact hw
  | cons t ts ih => exact ih (indexWF_indexInsert hw h t i)

theorem indexWF_foldl_indexErase (ts : List TimeCamId) {o : ObsIndex} (hw : IndexWF o)
    (h : TimeCamId) (i : LandmarkId) :
    IndexWF (ts.foldl (fun o t => indexErase o h t i) o) := by
  induction ts generalizing o with
  | nil => exact hw
  | cons t ts ih => exact ih (indexWF_indexErase hw h t i)

section Assoc
variable {K V : Type} [DecidableEq K]

theorem mem_keys_foldl_erase {ts : List K} {m : List (K × V)} {x : K} :
    x ∈ keys (ts.foldl erase m) ↔ x ∈ keys m ∧ x ∉ ts := by
  induction ts generalizing m with
  | nil => simp
  | cons t ts ih =>
    rw [List.foldl_cons, ih, mem_keys_erase]
    simp only [List.mem_cons, not_or]
    tauto

theorem length_erase_of_mem {m : List (K × V)} (hn : (keys m).Nodup) {k : K}
    (hk : k ∈ keys m) : (erase m k).length + 1 = m.length := by
  induction m with
  | nil => simp [keys] at hk
  | cons a r ih =>
    obtain ⟨k', v⟩ := a
    simp only [keys, List.map_cons, List.nodup_cons] at hn
    by_cases h : k' = k
    · subst h
      have hnot : k' ∉ keys r := hn.1
      have : erase ((k', v) :: r) k' = r := by
        simp only [erase, ne_eq, decide_not, List.filter_cons, decide_True, Bool.not_true]
        simp only [Bool.false_eq_true, if_false]
        apply List.filter_eq_self.2
        intro e he
        have hne : e.1 ≠ k' := fun h2 => hnot (h2 ▸ List.mem_map_of_mem Prod.fst he)
        simp [hne]
      rw [this]
      simp
    · have hk2 : k ∈ keys r := by
        simp only [keys, List.map_cons, List.mem_cons] at hk
        rcases hk with e | e
        · exact absurd e.symm h
        · exact e
      have : erase ((k', v) :: r) k = (k', v) :: erase r k := by simp [erase, h]
      rw [this]
      simp only [List.length_cons]
      rw [ih hn.2 hk2]

end Assoc

/-! ### Effect of the primitive steps on `kpts` and on the reverse index -/

section Db
variable {S : Type}

theorem find_kpts_removeLandmarkHelper (db : LandmarkDatabase S) (i : LandmarkId)
    (lm : Landmark S) (x : LandmarkId) :
    find (db.removeLandmarkHelper i lm).kpts x = if x = i then none else find db.kpts x := by
  simp [LandmarkDatabase.removeLandmarkHelper, find_erase]

theorem mem_idx_removeLandmarkHelper (db : LandmarkDatabase S) (i : LandmarkId)
    (lm : Landmark S) (h t : TimeCamId) (x : LandmarkId) :
    x ∈ idx (db.removeLandmarkHelper i lm).observations h t
      ↔ x ∈ idx db.observations h t ∧ ¬ (h = lm.host_kf_id ∧ t ∈ keys lm.obs ∧ x = i) := by
  simp only [LandmarkDatabase.removeLandmarkHelper]
  exact mem_idx_foldl_indexErase _ _ _ _ _ _ _

theorem find_kpts_removeLandmarkObservationHelper (db : LandmarkDatabase S) (i : LandmarkId)
    (t : TimeCamId) (x : LandmarkId) :
    find (db.removeLandmarkObservationHelper i t).kpts x
      = if x = i then (find db.kpts x).map (fun l => { l with obs := erase l.obs t })
        else find db.kpts x := by
  unfold LandmarkDatabase.removeLandmarkObservationHelper
  cases h1 : find db.kpts i with
  | none =>
    by_cases hx : x = i
    · subst hx
      simp [h1]
    · simp [hx]
  | some lm =>
    simp only [find_modify]

theorem mem_idx_removeLandmarkObservationHelper (db : LandmarkDatabase S) (i : LandmarkId)
    (t : TimeCamId) {lm : Landmark S} (hf : find db.kpts i = some lm)
    (h' t' : TimeCamId) (x : LandmarkId) :
    x ∈ idx (db.removeLandmarkObservationHelper i t).observations h' t'
      ↔ x ∈ idx db.observations h' t' ∧ ¬ (h' = lm.host_kf_id ∧ t' = t ∧ x = i) := by
  unfold LandmarkDatabase.removeLandmarkObservationHelper
  simp only [hf]
  exact mem_idx_indexErase _ _ _ _ _ _ _

theorem removeLandmarkObservationHelper_of_none (db : LandmarkDatabase S) (i : LandmarkId)
    (t : TimeCamId) (hf : find db.kpts i = none) :
    db.removeLandmarkObservationHelper i t = db := by
  unfold LandmarkDatabase.removeLandmarkObservationHelper
  simp [hf]

/-! ### Preservation of the invariants by the primitive steps -/

theorem consistent_empty : Consistent (LandmarkDatabase.empty : LandmarkDatabase S) := by
  refine ⟨?_, ?_, pruned_nil⟩
  · intro h t i hi
    simp [LandmarkDatabase.empty, idx, find] at hi
  · intro i lm t hf
    simp [LandmarkDatabase.empty, find] at hf

theorem wf_empty : WF (LandmarkDatabase.empty : LandmarkDatabase S) :=
  ⟨by simp [LandmarkDatabase.empty, keys], indexWF_nil⟩

theorem consistent_removeLandmarkHelper {db : LandmarkDatabase S} (hc : Consistent db)
    {i : LandmarkId} {lm : Landmark S} (hf : find db.kpts i = some lm) :
    Consistent (db.removeLandmarkHelper i lm) := by
  obtain ⟨h1, h2, h3⟩ := hc
  refine ⟨?_, ?_, ?_⟩
  · intro h t x hx
    rw [mem_idx_removeLandmarkHelper] at hx
    obtain ⟨lm0, hf0, hh, ht⟩ := h1 h t x hx.1
    refine ⟨lm0, ?_, hh, ht⟩
    rw [find_kpts_removeLandmarkHelper]
    by_cases hxi : x = i
    · subst hxi
      rw [hf] at hf0
      cases hf0
      exact absurd ⟨hh.symm, ht, rfl⟩ hx.2
    · simp [hxi, hf0]
  · intro x lm0 t hf0 ht
    rw [find_kpts_removeLandmarkHelper] at hf0
    by_cases hxi : x = i
    · simp [hxi] at hf0
    · simp only [hxi, if_false] at hf0
      rw [mem_idx_removeLandmarkHelper]
      exact ⟨h2 x lm0 t hf0 ht, fun hn => hxi hn.2.2⟩
  · exact pruned_foldl_indexErase _ h3 _ _

theorem wf_removeLandmarkHelper {db : LandmarkDatabase S} (hw : WF db)
    (i : LandmarkId) (lm : Landmark S) : WF (db.removeLandmarkHelper i lm) :=
  ⟨nodup_keys_erase hw.1 _, indexWF_foldl_indexErase _ hw.2 _ _⟩

theorem consistent_removeLandmarkObservationHelper {db : LandmarkDatabase S}
    (hc : Consistent db) (i : LandmarkId) (t : TimeCamId) :
    Consistent (db.removeLandmarkObservationHelper i t) := by
  cases hf : find db.kpts i with
  | none =>
    rw [removeLandmarkObservationHelper_of_none db i t hf]
    exact hc
  | some lm =>
    obtain ⟨h1, h2, h3⟩ := hc
    refine ⟨?_, ?_, ?_⟩
    · intro h' t' x hx
      rw [mem_idx_removeLandmarkObservationHelper db i t hf] at hx
      obtain ⟨lm0, hf0, hh, ht⟩ := h1 h' t' x hx.1
      rw [find_kpts_removeLandmarkObservationHelper]
      by_cases hxi : x = i
      · subst hxi
        rw [hf] at hf0
        cases hf0
        refine ⟨{ lm with obs := erase lm.obs t }, by simp [hf], hh, ?_⟩
        simp only
        rw [mem_keys_erase]
        exact ⟨ht, fun e => hx.2 ⟨hh.symm, e, rfl⟩⟩
      · exact ⟨lm0, by simp [hxi, hf0], hh, ht⟩
    · intro x lm0 t' hf0 ht
      rw [find_kpts_removeLandmarkObservationHelper] at hf0
      rw [mem_idx_removeLandmarkObservationHelper db i t hf]
      by_cases hxi : x = i
      · subst hxi
        simp only [if_true, hf, Option.map_some', Option.some.injEq] at hf0
        subst hf0
        simp only at ht ⊢
        rw [mem_keys_erase] at ht
        exact ⟨h2 x lm t' hf ht.1, fun hn => ht.2 hn.2.1⟩
      · simp only [hxi, if_false] at hf0
        exact ⟨h2 x lm0 t' hf0 ht, fun hn => hxi hn.2.2⟩
    · unfold LandmarkDatabase.removeLandmarkObservationHelper
      simp only [hf]
      exact pruned_indexErase h3 _ _ _

theorem wf_removeLandmarkObservationHelper {db : LandmarkDatabase S} (hw : WF db)
    (i : LandmarkId) (t : TimeCamId) : WF (db.removeLandmarkObservationHelper i t) := by
  unfold LandmarkDatabase.removeLandmarkObservationHelper
  cases hf : find db.kpts i with
  | none => exact hw
  | some lm =>
    refine ⟨?_, indexWF_indexErase hw.2 _ _ _⟩
    simp only [keys_modify]
    exact hw.1


/-! ### Removal of several observations, and the cascade rule -/

theorem find_kpts_foldl_removeObs (ts : List TimeCamId) (db : LandmarkDatabase S)
    (i x : LandmarkId) :
    find (ts.foldl (fun d t => d.removeLandmarkObservationHelper i t) db).kpts x
      = if x = i then (find db.kpts x).map (fun l => { l with obs := ts.foldl erase l.obs })
        else find db.kpts x := by
  induction ts generalizing db with
  | nil =>
    by_cases hx : x = i
    · subst hx
      cases hf : find db.kpts x <;> simp [hf]
    · simp [hx]
  | cons t ts ih =>
    rw [List.foldl_cons, ih, find_kpts_removeLandmarkObservationHelper]
    by_cases hx : x = i
    · simp only [hx, if_true]
      cases hf : find db.kpts i <;> simp
    · simp [hx]

theorem consistent_foldl_removeObs (ts : List TimeCamId) {db : LandmarkDatabase S}
    (hc : Consistent db) (i : LandmarkId) :
    Consistent (ts.foldl (fun d t => d.removeLandmarkObservationHelper i t) db) := by
  induction ts generalizing db with
  | nil => exact hc
  | cons t ts ih => exact ih (consistent_removeLandmarkObservationHelper hc i t)

theorem wf_foldl_removeObs (ts : List TimeCamId) {db : LandmarkDatabase S}
    (hw : WF db) (i : LandmarkId) :
    WF (ts.foldl (fun d t => d.removeLandmarkObservationHelper i t) db) := by
  induction ts generalizing db with
  | nil => exact hw
  | cons t ts ih => exact ih (wf_removeLandmarkObservationHelper hw i t)

theorem find_kpts_cascade (db : LandmarkDatabase S) (i x : LandmarkId) :
    find (db.cascade i).kpts x
      = if x = i then
          (find db.kpts x).bind (fun l => if l.obs.length < min_num_obs then none else some l)
        else find db.kpts x := by
  unfold LandmarkDatabase.cascade
  cases hf : find db.kpts i with
  | none =>
    by_cases hx : x = i
    · subst hx
      simp [hf]
    · simp [hx]
  | some lm =>
    simp only
    by_cases hl : lm.obs.length < min_num_obs
    · rw [if_pos hl, find_kpts_removeLandmarkHelper]
      by_cases hx : x = i
      · subst hx
        simp [hf, hl]
      · simp [hx]
    · rw [if_neg hl]
      by_cases hx : x = i
      · subst hx
        simp [hf, hl]
      · simp [hx]

theorem consistent_cascade {db : LandmarkDatabase S} (hc : Consistent db) (i : LandmarkId) :
    Consistent (db.cascade i) := by
  unfold LandmarkDatabase.cascade
  cases hf : find db.kpts i with
  | none => exact hc
  | some lm =>
    simp only
    split
    · exact consistent_removeLandmarkHelper hc hf
    · exact hc

theorem wf_cascade {db : LandmarkDatabase S} (hw : WF db) (i : LandmarkId) :
    WF (db.cascade i) := by
  unfold LandmarkDatabase.cascade
  cases hf : find db.kpts i with
  | none => exact hw
  | some lm =>
    simp only
    split
    · exact wf_removeLandmarkHelper hw i lm
    · exact hw

/-! ### The public operations -/

theorem find_kpts_removeObservations {db db1 : LandmarkDatabase S} {i : LandmarkId}
    {ts : List TimeCamId} (h : db.removeObservations i ts = .ok db1) (x : LandmarkId) :
    find db1.kpts x
      = if x = i then
          (find db.kpts x).bind (fun l =>
            if (ts.foldl erase l.obs).length < min_num_obs then none
            else some { l with obs := ts.foldl erase l.obs })
        else find db.kpts x := by
  unfold LandmarkDatabase.removeObservations at h
  cases hf : find db.kpts i with
  | none => simp [hf] at h
  | some lm =>
    simp only [hf, Except.ok.injEq] at h
    subst h
    rw [find_kpts_cascade, find_kpts_foldl_removeObs]
    by_cases hx : x = i
    · subst hx
      simp [hf]
    · simp [hx]

theorem consistent_removeObservations {db db1 : LandmarkDatabase S} (hc : Consistent db)
    {i : LandmarkId} {ts : List TimeCamId} (h : db.removeObservations i ts = .ok db1) :
    Consistent db1 := by
  unfold LandmarkDatabase.removeObservations at h
  cases hf : find db.kpts i with
  | none => simp [hf] at h
  | some lm =>
    simp only [hf, Except.ok.injEq] at h
    subst h
    exact consistent_cascade (consistent_foldl_removeObs ts hc i) i

theorem wf_removeObservations {db db1 : LandmarkDatabase S} (hw : WF db)
    {i : LandmarkId} {ts : List TimeCamId} (h : db.removeObservations i ts = .ok db1) :
    WF db1 := by
  unfold LandmarkDatabase.removeObservations at h
  cases hf : find db.kpts i with
  | none => simp [hf] at h
  | some lm =>
    simp only [hf, Except.ok.injEq] at h
    subst h
    exact wf_cascade (wf_foldl_removeObs ts hw i) i

theorem consistent_removeLandmark {db db1 : LandmarkDatabase S} (hc : Consistent db)
    {i : LandmarkId} (h : db.removeLandmark i = .ok db1) : Consistent db1 := by
  unfold LandmarkDatabase.removeLandmark at h
  cases hf : find db.kpts i with
  | none => simp [hf] at h
  | some lm =>
    simp only [hf, Except.ok.injEq] at h
    subst h
    exact consistent_removeLandmarkHelper hc hf

theorem wf_removeLandmark {db db1 : LandmarkDatabase S} (hw : WF db)
    {i : LandmarkId} (h : db.removeLandmark i = .ok db1) : WF db1 := by
  unfold LandmarkDatabase.removeLandmark at h
  cases hf : find db.kpts i with
  | none => simp [hf] at h
  | some lm =>
    simp only [hf, Except.ok.injEq] at h
    subst h
    exact wf_removeLandmarkHelper hw i lm

theorem find_kpts_addLandmark {db db1 : LandmarkDatabase S} {i : LandmarkId}
    {pos : Landmark S} (h : db.addLandmark i pos = .ok db1) (x : LandmarkId) :
    find db1.kpts x = if x = i then some pos else find db.kpts x := by
  unfold LandmarkDatabase.addLandmark at h
  cases hf : find db.kpts i with
  | some lm => simp [hf] at h
  | none =>
    simp only [hf, Except.ok.injEq] at h
    subst h
    exact find_upsert db.kpts i pos x

theorem addLandmark_absent {db db1 : LandmarkDatabase S} {i : LandmarkId}
    {pos : Landmark S} (h : db.addLandmark i pos = .ok db1) : find db.kpts i = none := by
  unfold LandmarkDatabase.addLandmark at h
  cases hf : find db.kpts i with
  | some lm => simp [hf] at h
  | none => rfl

theorem consistent_addLandmark {db db1 : LandmarkDatabase S} (hc : Consistent db)
    {i : LandmarkId} {pos : Landmark S} (h : db.addLandmark i pos = .ok db1) :
    Consistent db1 := by
  have hfind := find_kpts_addLandmark h
  have habs := addLandmark_absent h
  unfold LandmarkDatabase.addLandmark at h
  simp only [habs, Except.ok.injEq] at h
  obtain ⟨h1, h2, h3⟩ := hc
  have hidx : ∀ h' t' x, x ∈ idx db1.observations h' t'
      ↔ x ∈ idx db.observations h' t' ∨ (h' = pos.host_kf_id ∧ t' ∈ keys pos.obs ∧ x = i) := by
    intro h' t' x
    rw [← h]
    exact mem_idx_foldl_indexInsert _ _ _ _ _ _ _
  refine ⟨?_, ?_, ?_⟩
  · intro h' t' x hx
    rw [hidx] at hx
    rw [hfind]
    rcases hx with hx | ⟨hh, ht, rfl⟩
    · obtain ⟨lm0, hf0, hh, ht⟩ := h1 h' t' x hx
      have hxi : x ≠ i := by
        rintro rfl
        rw [habs] at hf0
        cases hf0
      exact ⟨lm0, by simp [hxi, hf0], hh, ht⟩
    · exact ⟨pos, by simp, hh.symm, ht⟩
  · intro x lm0 t' hf0 ht
    rw [hfind] at hf0
    rw [hidx]
    by_cases hxi : x = i
    · subst hxi
      simp only [if_true, Option.some.injEq] at hf0
      subst hf0
      exact Or.inr ⟨rfl, ht, rfl⟩
    · simp only [hxi, if_false] at hf0
      exact Or.inl (h2 x lm0 t' hf0 ht)
  · rw [← h]
    exact pruned_foldl_indexInsert _ h3 _ _

theorem wf_addLandmark {db db1 : LandmarkDatabase S} (hw : WF db)
    {i : LandmarkId} {pos : Landmark S} (h : db.addLandmark i pos = .ok db1) : WF db1 := by
  have habs := addLandmark_absent h
  unfold LandmarkDatabase.addLandmark at h
  simp only [habs, Except.ok.injEq] at h
  subst h
  have hk : (keys (upsert db.kpts i pos)).Nodup := nodup_keys_upsert hw.1 i pos
  refine ⟨hk, ?_⟩
  exact indexWF_foldl_indexInsert _ hw.2 pos.host_kf_id i

theorem find_kpts_addObservation {db db1 : LandmarkDatabase S} {t : TimeCamId}
    {o : KeypointObservation S} (h : db.addObservation t o = .ok db1) (x : LandmarkId) :
    find db1.kpts x
      = if x = o.kpt_id then
          (find db.kpts x).map (fun l => { l with obs := upsert l.obs t o.pos })
        else find db.kpts x := by
  unfold LandmarkDatabase.addObservation at h
  cases hf : find db.kpts o.kpt_id with
  | none => simp [hf] at h
  | some lm =>
    simp only [hf, Except.ok.injEq] at h
    subst h
    simp only [find_modify]

theorem consistent_addObservation {db db1 : LandmarkDatabase S} (hc : Consistent db)
    {t : TimeCamId} {o : KeypointObservation S} (h : db.addObservation t o = .ok db1) :
    Consistent db1 := by
  have hfind := find_kpts_addObservation h
  unfold LandmarkDatabase.addObservation at h
  cases hf : find db.kpts o.kpt_id with
  | none => simp [hf] at h
  | some lm =>
    simp only [hf, Except.ok.injEq] at h
    obtain ⟨h1, h2, h3⟩ := hc
    have hidx : ∀ h' t' x, x ∈ idx db1.observations h' t'
        ↔ x ∈ idx db.observations h' t' ∨ (h' = lm.host_kf_id ∧ t' = t ∧ x = o.kpt_id) := by
      intro h' t' x
      rw [← h]
      exact mem_idx_indexInsert _ _ _ _ _ _ _
    refine ⟨?_, ?_, ?_⟩
    · intro h' t' x hx
      rw [hidx] at hx
      rw [hfind]
      rcases hx with hx | ⟨hh, ht, rfl⟩
      · obtain ⟨lm0, hf0, hh, ht⟩ := h1 h' t' x hx
        by_cases hxi : x = o.kpt_id
        · subst hxi
          refine ⟨{ lm0 with obs := upsert lm0.obs t o.pos }, by simp [hf0], hh, ?_⟩
          simp only
          exact mem_keys_upsert.2 (Or.inr ht)
        · exact ⟨lm0, by simp [hxi, hf0], hh, ht⟩
      · refine ⟨{ lm with obs := upsert lm.obs t o.pos }, by simp [hf], hh.symm, ?_⟩
        simp only
        exact mem_keys_upsert.2 (Or.inl ht)
    · intro x lm0 t' hf0 ht
      rw [hfind] at hf0
      rw [hidx]
      by_cases hxi : x = o.kpt_id
      · subst hxi
        simp only [if_true, hf, Option.map_some', Option.some.injEq] at hf0
        subst hf0
        simp only at ht ⊢
        rcases mem_keys_upsert.1 ht with e | e
        · exact Or.inr ⟨trivial, e, trivial⟩
        · exact Or.inl (h2 _ lm t' hf e)
      · simp only [hxi, if_false] at hf0
        exact Or.inl (h2 x lm0 t' hf0 ht)
    · rw [← h]
      exact pruned_indexInsert h3 _ _ _

theorem wf_addObservation {db db1 : LandmarkDatabase S} (hw : WF db)
    {t : TimeCamId} {o : KeypointObservation S} (h : db.addObservation t o = .ok db1) :
    WF db1 := by
  unfold LandmarkDatabase.addObservation at h
  cases hf : find db.kpts o.kpt_id with
  | none => simp [hf] at h
  | some lm =>
    simp only [hf, Except.ok.injEq] at h
    subst h
    refine ⟨?_, indexWF_indexInsert hw.2 _ _ _⟩
    simp only [keys_modify]
    exact hw.1


/-! ### The sweep of `removeFrame` and `removeKeyframes` -/

theorem find_kpts_sweepStep (hg tg : TimeCamId → Bool) (ao : Bool) (db : LandmarkDatabase S)
    (i x : LandmarkId) :
    find (LandmarkDatabase.sweepStep hg tg ao db i).kpts x
      = if x = i then (find db.kpts x).bind (sweepLandmark hg tg ao) else find db.kpts x := by
  unfold LandmarkDatabase.sweepStep
  cases hf : find db.kpts i with
  | none =>
    by_cases hx : x = i
    · subst hx
      simp [hf]
    · simp [hx]
  | some lm =>
    simp only
    by_cases hx : x = i
    · subst hx
      simp only [if_true, hf, Option.some_bind]
      unfold sweepLandmark
      by_cases h1 : hg lm.host_kf_id = true
      · simp [h1, find_kpts_removeLandmarkHelper]
      · simp only [h1, Bool.false_eq_true, if_false]
        by_cases h2 : (ao && ((keys lm.obs).filter tg).isEmpty) = true
        · simp only [h2, if_true]
          exact hf
        · simp only [h2, Bool.false_eq_true, if_false]
          rw [find_kpts_cascade, find_kpts_foldl_removeObs]
          simp [hf]
    · simp only [hx, if_false]
      split
      · rw [find_kpts_removeLandmarkHelper]
        simp [hx]
      · split
        · rfl
        · rw [find_kpts_cascade, find_kpts_foldl_removeObs]
          simp [hx]

theorem consistent_sweepStep (hg tg : TimeCamId → Bool) (ao : Bool) {db : LandmarkDatabase S}
    (hc : Consistent db) (i : LandmarkId) :
    Consistent (LandmarkDatabase.sweepStep hg tg ao db i) := by
  unfold LandmarkDatabase.sweepStep
  cases hf : find db.kpts i with
  | none => exact hc
  | some lm =>
    simp only
    split
    · exact consistent_removeLandmarkHelper hc hf
    · split
      · exact hc
      · exact consistent_cascade (consistent_foldl_removeObs _ hc i) i

theorem wf_sweepStep (hg tg : TimeCamId → Bool) (ao : Bool) {db : LandmarkDatabase S}
    (hw : WF db) (i : LandmarkId) : WF (LandmarkDatabase.sweepStep hg tg ao db i) := by
  unfold LandmarkDatabase.sweepStep
  cases hf : find db.kpts i with
  | none => exact hw
  | some lm =>
    simp only
    split
    · exact wf_removeLandmarkHelper hw i lm
    · split
      · exact hw
      · exact wf_cascade (wf_foldl_removeObs _ hw i) i

theorem consistent_foldl_sweepStep (hg tg : TimeCamId → Bool) (ao : Bool) (l : List LandmarkId)
    {db : LandmarkDatabase S} (hc : Consistent db) :
    Consistent (l.foldl (LandmarkDatabase.sweepStep hg tg ao) db) := by
  induction l generalizing db with
  | nil => exact hc
  | cons i l ih => exact ih (consistent_sweepStep hg tg ao hc i)

theorem wf_foldl_sweepStep (hg tg : TimeCamId → Bool) (ao : Bool) (l : List LandmarkId)
    {db : LandmarkDatabase S} (hw : WF db) :
    WF (l.foldl (LandmarkDatabase.sweepStep hg tg ao) db) := by
  induction l generalizing db with
  | nil => exact hw
  | cons i l ih => exact ih (wf_sweepStep hg tg ao hw i)

theorem find_kpts_foldl_sweepStep (hg tg : TimeCamId → Bool) (ao : Bool) (l : List LandmarkId)
    (hl : l.Nodup) (db : LandmarkDatabase S) (x : LandmarkId) :
    find (l.foldl (LandmarkDatabase.sweepStep hg tg ao) db).kpts x
      = if x ∈ l then (find db.kpts x).bind (sweepLandmark hg tg ao) else find db.kpts x := by
  induction l generalizing db with
  | nil => simp
  | cons i l ih =>
    rw [List.nodup_cons] at hl
    rw [List.foldl_cons, ih hl.2, find_kpts_sweepStep]
    by_cases hx : x = i
    · subst hx
      simp [hl.1]
    · simp [hx]

theorem consistent_sweep (hg tg : TimeCamId → Bool) (ao : Bool) {db : LandmarkDatabase S}
    (hc : Consistent db) : Consistent (db.sweep hg tg ao) :=
  consistent_foldl_sweepStep hg tg ao _ hc

theorem wf_sweep (hg tg : TimeCamId → Bool) (ao : Bool) {db : LandmarkDatabase S}
    (hw : WF db) : WF (db.sweep hg tg ao) :=
  wf_foldl_sweepStep hg tg ao _ hw

theorem find_kpts_sweep (hg tg : TimeCamId → Bool) (ao : Bool) {db : LandmarkDatabase S}
    (hw : WF db) (x : LandmarkId) :
    find (db.sweep hg tg ao).kpts x = (find db.kpts x).bind (sweepLandmark hg tg ao) := by
  unfold LandmarkDatabase.sweep
  rw [find_kpts_foldl_sweepStep hg tg ao _ hw.1]
  by_cases hx : x ∈ keys db.kpts
  · simp [hx]
  · have : find db.kpts x = none := (find_eq_none_iff _ _).2 hx
    simp [hx, this]

theorem consistent_call {db db1 : LandmarkDatabase S} (hc : Consistent db) {c : Call S}
    (h : db.call c = .ok db1) : Consistent db1 := by
  cases c with
  | addLandmark i pos => exact consistent_addLandmark hc h
  | addObservation t o => exact consistent_addObservation hc h
  | removeObservations i ts => exact consistent_removeObservations hc h
  | removeLandmark i => exact consistent_removeLandmark hc h
  | removeFrame f =>
    simp only [LandmarkDatabase.call, Except.ok.injEq] at h
    subst h
    exact consistent_sweep _ _ _ hc
  | removeKeyframes k p s =>
    simp only [LandmarkDatabase.call, Except.ok.injEq] at h
    subst h
    exact consistent_sweep _ _ _ hc

theorem wf_call {db db1 : LandmarkDatabase S} (hw : WF db) {c : Call S}
    (h : db.call c = .ok db1) : WF db1 := by
  cases c with
  | addLandmark i pos => exact wf_addLandmark hw h
  | addObservation t o => exact wf_addObservation hw h
  | removeObservations i ts => exact wf_removeObservations hw h
  | removeLandmark i => exact wf_removeLandmark hw h
  | removeFrame f =>
    simp only [LandmarkDatabase.call, Except.ok.injEq] at h
    subst h
    exact wf_sweep _ _ _ hw
  | removeKeyframes k p s =>
    simp only [LandmarkDatabase.call, Except.ok.injEq] at h
    subst h
    exact wf_sweep _ _ _ hw


/-! ### Sequences of calls -/

theorem step_eq (db : LandmarkDatabase S) (c : Call S) :
    (db.step c = db ∧ ∃ e, db.call c = .error e) ∨ db.call c = .ok (db.step c) := by
  unfold LandmarkDatabase.step
  cases h : db.call c with
  | error e => exact Or.inl ⟨rfl, e, rfl⟩
  | ok d => exact Or.inr rfl

theorem consistent_step {db : LandmarkDatabase S} (hc : Consistent db) (c : Call S) :
    Consistent (db.step c) := by
  rcases step_eq db c with ⟨h, -⟩ | h
  · rw [h]
    exact hc
  · exact consistent_call hc h

theorem wf_step {db : LandmarkDatabase S} (hw : WF db) (c : Call S) : WF (db.step c) := by
  rcases step_eq db c with ⟨h, -⟩ | h
  · rw [h]
    exact hw
  · exact wf_call hw h

theorem consistent_run {db : LandmarkDatabase S} (hc : Consistent db) (cs : List (Call S)) :
    Consistent (db.run cs) := by
  induction cs generalizing db with
  | nil => exact hc
  | cons c cs ih => exact ih (consistent_step hc c)

theorem wf_run {db : LandmarkDatabase S} (hw : WF db) (cs : List (Call S)) :
    WF (db.run cs) := by
  induction cs generalizing db with
  | nil => exact hw
  | cons c cs ih => exact ih (wf_step hw c)

theorem observations_nil_of_kpts_nil {db : LandmarkDatabase S} (hc : Consistent db)
    (hk : ∀ x, find db.kpts x = none) : db.observations = [] := by
  obtain ⟨h1, -, h3⟩ := hc
  cases ho : db.observations with
  | nil => rfl
  | cons e r =>
    exfalso
    obtain ⟨h, inner⟩ := e
    have hmem : (h, inner) ∈ db.observations := by
      rw [ho]
      exact List.mem_cons_self _ _
    obtain ⟨hne, hin⟩ := h3 _ hmem
    cases hi : inner with
    | nil => exact hne hi
    | cons e1 r1 =>
      obtain ⟨t, ids⟩ := e1
      have hmem1 : (t, ids) ∈ inner := by
        rw [hi]
        exact List.mem_cons_self _ _
      have hids := hin _ hmem1
      cases hd : ids with
      | nil => exact hids hd
      | cons x r2 =>
        have hx : x ∈ idx db.observations h t := by
          rw [mem_idx_iff]
          refine ⟨inner, ids, ?_, ?_, ?_⟩
          · rw [ho]
            simp [find]
          · rw [hi]
            simp [find]
          · rw [hd]
            exact List.mem_cons_self _ _
        obtain ⟨lm, hf, -⟩ := h1 h t x hx
        rw [hk x] at hf
        cases hf

theorem not_occursInIndex_of_absent {db : LandmarkDatabase S} (hc : Consistent db)
    (hw : WF db) {i : LandmarkId} (hf : find db.kpts i = none) :
    ¬ occursInIndex db.observations i := by
  rintro ⟨e, he, e1, he1, hi⟩
  have h1 : find db.observations e.1 = some e.2 := find_of_mem hw.2.1 he
  have h2 : find e.2 e1.1 = some e1.2 := find_of_mem (hw.2.2 e he).1 he1
  have hx : i ∈ idx db.observations e.1 e1.1 := mem_idx_iff.2 ⟨e.2, e1.2, h1, h2, hi⟩
  obtain ⟨lm, hf2, -⟩ := hc.1 _ _ _ hx
  rw [hf] at hf2
  cases hf2

/-! ### What one call does to a stored landmark -/

end Db

section Assoc
variable {K V : Type} [DecidableEq K]

theorem find_map_values (m : List (K × V)) (f : V → V) (x : K) :
    find (m.map (fun kv => (kv.1, f kv.2))) x = (find m x).map f := by
  induction m with
  | nil => rfl
  | cons a r ih =>
    obtain ⟨k, v⟩ := a
    simp only [List.map_cons, find_cons, ih]
    by_cases h : k = x <;> simp [h]

theorem foldl_modify_eq_map (f : V → V) (hf : ∀ v, f (f v) = f v) (order : List K)
    (m : List (K × V)) :
    order.foldl (fun m k => modify m k f) m
      = m.map (fun kv => if kv.1 ∈ order then (kv.1, f kv.2) else kv) := by
  induction order generalizing m with
  | nil => simp
  | cons i rest ih =>
    rw [List.foldl_cons, ih]
    simp only [modify, List.map_map]
    apply List.map_congr_left
    intro kv _
    simp only [Function.comp_apply, List.mem_cons]
    by_cases h1 : kv.1 = i
    · by_cases h2 : i ∈ rest
      · simp [h1, h2, hf]
      · simp [h1, h2]
    · by_cases h2 : kv.1 ∈ rest
      · simp [h1, h2]
      · simp [h1, h2]

end Assoc

theorem keys_map_values {K V : Type} (m : List (K × V)) (f : V → V) :
    keys (m.map (fun kv => (kv.1, f kv.2))) = keys m := by
  simp [keys, List.map_map, Function.comp_def]

section Db
variable {S : Type}

/-! ### Snapshot and rollback -/

theorem backup_backup (lm : Landmark S) : lm.backup.backup = lm.backup := rfl

theorem restore_restore (lm : Landmark S) : lm.restore.restore = lm.restore := rfl

theorem write_snapshot (lm : Landmark S) (w : FieldWrite S) :
    (lm.write w).backup_direction = lm.backup_direction ∧
    (lm.write w).backup_inv_dist = lm.backup_inv_dist ∧
    (lm.write w).host_kf_id = lm.host_kf_id ∧ (lm.write w).obs = lm.obs ∧
    (lm.write w).id = lm.id := by
  cases w <;> exact ⟨rfl, rfl, rfl, rfl, rfl⟩

theorem writes_snapshot (ws : List (FieldWrite S)) (lm : Landmark S) :
    (lm.writes ws).backup_direction = lm.backup_direction ∧
    (lm.writes ws).backup_inv_dist = lm.backup_inv_dist ∧
    (lm.writes ws).host_kf_id = lm.host_kf_id ∧ (lm.writes ws).obs = lm.obs ∧
    (lm.writes ws).id = lm.id := by
  induction ws generalizing lm with
  | nil => exact ⟨rfl, rfl, rfl, rfl, rfl⟩
  | cons w ws ih =>
    have h1 := ih (lm.write w)
    have h2 := write_snapshot lm w
    have e : lm.writes (w :: ws) = (lm.write w).writes ws := rfl
    rw [e]
    exact ⟨h1.1.trans h2.1, h1.2.1.trans h2.2.1, h1.2.2.1.trans h2.2.2.1,
      h1.2.2.2.1.trans h2.2.2.2.1, h1.2.2.2.2.trans h2.2.2.2.2⟩

theorem keys_kpts_writes (ws : List (LandmarkId × FieldWrite S)) (db : LandmarkDatabase S) :
    keys (db.writes ws).kpts = keys db.kpts ∧ (db.writes ws).observations = db.observations := by
  induction ws generalizing db with
  | nil => exact ⟨rfl, rfl⟩
  | cons w ws ih =>
    have e : db.writes (w :: ws) = (db.write w).writes ws := rfl
    rw [e]
    obtain ⟨h1, h2⟩ := ih (db.write w)
    refine ⟨h1.trans ?_, h2.trans rfl⟩
    simp only [LandmarkDatabase.write, keys_modify]

theorem find_kpts_writes (ws : List (LandmarkId × FieldWrite S)) (db : LandmarkDatabase S)
    (x : LandmarkId) :
    ∃ fs : List (FieldWrite S),
      find (db.writes ws).kpts x = (find db.kpts x).map (fun lm => lm.writes fs) := by
  induction ws generalizing db with
  | nil =>
    refine ⟨[], ?_⟩
    cases h : find db.kpts x <;> simp [LandmarkDatabase.writes, Landmark.writes, h]
  | cons w ws ih =>
    have e : db.writes (w :: ws) = (db.write w).writes ws := rfl
    obtain ⟨fs, hfs⟩ := ih (db.write w)
    rw [e, hfs]
    simp only [LandmarkDatabase.write, find_modify]
    by_cases hx : x = w.1
    · refine ⟨w.2 :: fs, ?_⟩
      cases h : find db.kpts x <;> simp [hx, Landmark.writes]
    · exact ⟨fs, by simp [hx]⟩

/-! ### Draining a queue -/

theorem drainLoop_spec {T : Type} (fuel : Nat) (q : BoundedQueue T)
    (h : q.items.length < fuel) :
    drainLoop fuel q = some (q.items, { q with items := [] }) := by
  induction fuel generalizing q with
  | zero => omega
  | succ n ih =>
    obtain ⟨cap, items⟩ := q
    cases items with
    | nil => simp [drainLoop, BoundedQueue.empty]
    | cons d r =>
      have hr : r.length < n := by
        simp only [List.length_cons] at h
        omega
      simp [drainLoop, BoundedQueue.empty, BoundedQueue.pop, ih ⟨cap, r⟩ hr]

end Db

/-! ## The claims -/

section Claims
variable {S : Type}

/-- C1. Backup/restore round trip of the database: after `backup()`, any
sequence of writes to the `direction` and `inv_dist` fields of stored
landmarks, and `restore()`, the same landmark ids are stored, and every
landmark that was stored when `backup()` was called is stored with exactly the
`direction` and `inv_dist` it had at that moment. -/
theorem backup_restore_roundtrip (db : LandmarkDatabase S)
    (ws : List (LandmarkId × FieldWrite S)) (lm_id : LandmarkId) (lm : Landmark S)
    (h : find db.kpts lm_id = some lm) :
    keys (db.backup.writes ws).restore.kpts = keys db.kpts ∧
    ∃ lm1, find (db.backup.writes ws).restore.kpts lm_id = some lm1 ∧
      lm1.direction = lm.direction ∧ lm1.inv_dist = lm.inv_dist := by
  constructor
  · simp only [LandmarkDatabase.restore, keys_map_values]
    rw [(keys_kpts_writes ws db.backup).1]
    simp only [LandmarkDatabase.backup, keys_map_values]
  · obtain ⟨fs, hfs⟩ := find_kpts_writes ws db.backup lm_id
    have hb : find db.backup.kpts lm_id = some lm.backup := by
      simp only [LandmarkDatabase.backup, find_map_values, h, Option.map_some']
    rw [hb] at hfs
    refine ⟨(lm.backup.writes fs).restore, ?_, ?_, ?_⟩
    · simp only [LandmarkDatabase.restore, find_map_values, hfs, Option.map_some']
    · exact (writes_snapshot fs lm.backup).1
    · exact (writes_snapshot fs lm.backup).2.1

/-- Witness of C1: the window of the window-slide example, with both position
parameters of landmark 1 overwritten between `backup()` and `restore()`. -/
theorem backup_restore_roundtrip_witness :
    find exWindow.kpts 1 = some (exLandmark 1 [2, 3] 1) ∧
    ∃ lm1, find (exWindow.backup.writes
        [(1, .direction (8, 9)), (1, .inv_dist 10), (2, .inv_dist 11)]).restore.kpts 1 = some lm1 ∧
      lm1.direction = (1, 2) ∧ lm1.inv_dist = 3 :=
  ⟨rfl, (backup_restore_roundtrip exWindow
    [(1, .direction (8, 9)), (1, .inv_dist 10), (2, .inv_dist 11)] 1 (exLandmark 1 [2, 3] 1) rfl).2⟩

/-- C5, as the code has it: `Landmark::restore()` overwrites `direction` and
`inv_dist` with the snapshot fields whether or not `backup()` was called, and
leaves every other field as it was; it is a no-op exactly when the snapshot
fields already equal `direction` and `inv_dist`. -/
theorem restore_spec (lm : Landmark S) :
    lm.restore.direction = lm.backup_direction ∧ lm.restore.inv_dist = lm.backup_inv_dist ∧
    lm.restore.host_kf_id = lm.host_kf_id ∧ lm.restore.obs = lm.obs ∧ lm.restore.id = lm.id ∧
    lm.restore.backup_direction = lm.backup_direction ∧
    lm.restore.backup_inv_dist = lm.backup_inv_dist ∧
    (lm.restore = lm ↔
      lm.backup_direction = lm.direction ∧ lm.backup_inv_dist = lm.inv_dist) := by
  refine ⟨rfl, rfl, rfl, rfl, rfl, rfl, rfl, ?_⟩
  constructor
  · intro h
    have h1 : lm.restore.direction = lm.direction := by rw [h]
    have h2 : lm.restore.inv_dist = lm.inv_dist := by rw [h]
    exact ⟨h1, h2⟩
  · rintro ⟨h1, h2⟩
    cases lm
    simp only [Landmark.restore] at h1 h2 ⊢
    subst h1
    subst h2
    rfl

/-- Counterexample to C5: a landmark on which `backup()` was never called,
with position parameters `(1, 2)` and `3` and snapshot fields `(0, 0)` and `0`;
`restore()` changes both position parameters. -/
theorem restore_without_backup_changes :
    (exLandmark 1 [] 1).restore.direction ≠ (exLandmark 1 [] 1).direction ∧
    (exLandmark 1 [] 1).restore.inv_dist ≠ (exLandmark 1 [] 1).inv_dist ∧
    (exLandmark 1 [] 1).restore.direction = (0, 0) ∧
    (exLandmark 1 [] 1).restore.inv_dist = 0 := by
  refine ⟨?_, ?_, rfl, rfl⟩ <;> decide

/-- C6. `LandmarkDatabase::clear()` empties the database: `kpts` and
`observations` are empty, so no landmark id exists, the landmark count is 0 and
the reverse index has no host entry. -/
theorem clear_empties (db : LandmarkDatabase S) :
    db.clear.kpts = [] ∧ db.clear.observations = [] ∧ db.clear.kpts.length = 0 ∧
    (∀ lm_id, find db.clear.kpts lm_id = none) ∧
    (∀ h, find db.clear.observations h = none) ∧
    (∀ h t, idx db.clear.observations h t = []) :=
  ⟨rfl, rfl, rfl, fun _ => rfl, fun _ => rfl, fun _ _ => rfl⟩

/-- C7. `Landmark::backup()` changes nothing but the snapshot, which it sets to
the current `(direction, inv_dist)`; it is idempotent; and after a second
`backup()`, `restore()` returns the values held at that second `backup()`,
whatever is written before and after it. -/
theorem landmark_backup_spec (lm : Landmark S) (ws1 ws2 : List (FieldWrite S)) :
    lm.backup.direction = lm.direction ∧ lm.backup.inv_dist = lm.inv_dist ∧
    lm.backup.host_kf_id = lm.host_kf_id ∧ lm.backup.obs = lm.obs ∧ lm.backup.id = lm.id ∧
    lm.backup.backup_direction = lm.direction ∧ lm.backup.backup_inv_dist = lm.inv_dist ∧
    lm.backup.backup = lm.backup ∧
    (((lm.backup.writes ws1).backup.writes ws2).restore.direction
      = (lm.backup.writes ws1).direction) ∧
    (((lm.backup.writes ws1).backup.writes ws2).restore.inv_dist
      = (lm.backup.writes ws1).inv_dist) := by
  refine ⟨rfl, rfl, rfl, rfl, rfl, rfl, rfl, rfl, ?_, ?_⟩
  · exact (writes_snapshot ws2 (lm.backup.writes ws1).backup).1
  · exact (writes_snapshot ws2 (lm.backup.writes ws1).backup).2.1

/-- C8. Without a concurrent producer, `drain_input_queues()` terminates (any
fuel above the two queue lengths suffices), pops every queued item of both
input queues, oldest first, and leaves both queues empty, with their
capacities, `finished` and `last_processed_t_ns` unchanged. -/
theorem drain_input_queues_empties {V I : Type} (e : VioEstimatorBase V I) (fuel : Nat)
    (hi : e.imu_data_queue.items.length < fuel)
    (hv : e.vision_data_queue.items.length < fuel) :
    ∃ e1, e.drain_input_queues fuel
        = some (e.imu_data_queue.items, e.vision_data_queue.items, e1) ∧
      e1.imu_data_queue.items = [] ∧ e1.vision_data_queue.items = [] ∧
      e1.imu_data_queue.empty = true ∧ e1.vision_data_queue.empty = true ∧
      e1.imu_data_queue.capacity = e.imu_data_queue.capacity ∧
      e1.vision_data_queue.capacity = e.vision_data_queue.capacity ∧
      e1.finished = e.finished ∧ e1.last_processed_t_ns = e.last_processed_t_ns := by
  refine ⟨{ e with imu_data_queue := { e.imu_data_queue with items := [] },
                   vision_data_queue := { e.vision_data_queue with items := [] } },
    ?_, rfl, rfl, rfl, rfl, rfl, rfl, rfl, rfl⟩
  unfold VioEstimatorBase.drain_input_queues
  rw [drainLoop_spec fuel e.imu_data_queue hi]
  simp only
  rw [drainLoop_spec fuel e.vision_data_queue hv]

/-- Witness of C8: an estimator with two queued IMU samples and one queued
vision result, drained with fuel 3. -/
theorem drain_input_queues_empties_witness :
    ∃ e1, exEstimator.drain_input_queues 3 = some ([1, 2], [7], e1) ∧
      e1.imu_data_queue.items = [] ∧ e1.vision_data_queue.items = [] ∧
      e1.imu_data_queue.empty = true ∧ e1.vision_data_queue.empty = true ∧
      e1.imu_data_queue.capacity = some 300 ∧ e1.vision_data_queue.capacity = some 10 ∧
      e1.finished = true ∧ e1.last_processed_t_ns = 42 :=
  drain_input_queues_empties exEstimator 3 (by decide) (by decide)

/-- C9. A freshly constructed `VioEstimatorBase` has `vision_data_queue` with
capacity 10 and `imu_data_queue` with capacity 300, both empty,
`last_processed_t_ns` equal to 0 and `finished` equal to false. -/
theorem constructor_state (V I : Type) :
    (VioEstimatorBase.VioEstimatorBase V I).vision_data_queue.capacity = some 10 ∧
    (VioEstimatorBase.VioEstimatorBase V I).imu_data_queue.capacity = some 300 ∧
    (VioEstimatorBase.VioEstimatorBase V I).vision_data_queue.items = [] ∧
    (VioEstimatorBase.VioEstimatorBase V I).imu_data_queue.items = [] ∧
    (VioEstimatorBase.VioEstimatorBase V I).vision_data_queue.empty = true ∧
    (VioEstimatorBase.VioEstimatorBase V I).imu_data_queue.empty = true ∧
    (VioEstimatorBase.VioEstimatorBase V I).last_processed_t_ns = 0 ∧
    (VioEstimatorBase.VioEstimatorBase V I).finished = false :=
  ⟨rfl, rfl, rfl, rfl, rfl, rfl, rfl, rfl⟩

/-- C10. Database-level `backup()` and `restore()` act pointwise: the same
landmark ids are stored, each landmark is the result of `Landmark::backup()`
(resp. `restore()`) on that landmark alone, with `host_kf_id`, `obs` and `id`
unchanged, and the reverse index is unchanged; and running the loop in any
other enumeration order of `kpts` yields the same state. -/
theorem database_backup_restore_pointwise (db : LandmarkDatabase S) :
    (keys db.backup.kpts = keys db.kpts ∧
      (∀ lm_id, find db.backup.kpts lm_id = (find db.kpts lm_id).map Landmark.backup) ∧
      db.backup.observations = db.observations) ∧
    (keys db.restore.kpts = keys db.kpts ∧
      (∀ lm_id, find db.restore.kpts lm_id = (find db.kpts lm_id).map Landmark.restore) ∧
      db.restore.observations = db.observations) ∧
    (∀ lm : Landmark S,
      (lm.backup.host_kf_id = lm.host_kf_id ∧ lm.backup.obs = lm.obs ∧ lm.backup.id = lm.id) ∧
      (lm.restore.host_kf_id = lm.host_kf_id ∧ lm.restore.obs = lm.obs ∧
        lm.restore.id = lm.id)) ∧
    (∀ order : List LandmarkId, order.Perm (keys db.kpts) →
      db.visitInOrder Landmark.backup order = db.backup ∧
      db.visitInOrder Landmark.restore order = db.restore) := by
  refine ⟨⟨keys_map_values _ _, fun i => find_map_values _ _ i, rfl⟩,
    ⟨keys_map_values _ _, fun i => find_map_values _ _ i, rfl⟩,
    fun lm => ⟨⟨rfl, rfl, rfl⟩, ⟨rfl, rfl, rfl⟩⟩, ?_⟩
  intro order hperm
  have hvisit : ∀ (f : Landmark S → Landmark S), (∀ v, f (f v) = f v) →
      db.visitInOrder f order
        = { db with kpts := db.kpts.map (fun kv => (kv.1, f kv.2)) } := by
    intro f hf
    have hgen : ∀ (l : List LandmarkId) (d : LandmarkDatabase S),
        l.foldl (fun d id => { d with kpts := modify d.kpts id f }) d
          = { d with kpts := l.foldl (fun m k => modify m k f) d.kpts } := by
      intro l
      induction l with
      | nil => intro d; rfl
      | cons i l ih => intro d; simp only [List.foldl_cons, ih]
    unfold LandmarkDatabase.visitInOrder
    rw [hgen, foldl_modify_eq_map f hf]
    congr 1
    apply List.map_congr_left
    intro kv hkv
    have : kv.1 ∈ order := hperm.mem_iff.2 (List.mem_map_of_mem Prod.fst hkv)
    simp [this]
  exact ⟨hvisit Landmark.backup backup_backup, hvisit Landmark.restore restore_restore⟩

/-- Witness of C10: the two landmarks of the window-slide example visited in
the order 2, 1. -/
theorem database_backup_restore_pointwise_witness :
    exWindow.visitInOrder Landmark.backup [2, 1] = exWindow.backup ∧
    exWindow.visitInOrder Landmark.restore [2, 1] = exWindow.restore :=
  (database_backup_restore_pointwise exWindow).2.2.2 [2, 1] (by decide)


/-- C4. Cascade of `removeObservations` with `min_num_obs = 2`, for a stored
landmark and one target `t` of its `obs`: the call succeeds; if the landmark
has exactly `min_num_obs` observations it is no longer stored and its id occurs
nowhere in `observations`; if it has more, it is still stored, unchanged but
for `obs`, from which `t` is erased while every other entry is as before, and
its id has left `observations[host_kf_id][t]`. -/
theorem removeObservations_cascade (db : LandmarkDatabase S) (hc : Consistent db) (hw : WF db)
    (lm_id : LandmarkId) (lm : Landmark S) (t : TimeCamId)
    (hf : find db.kpts lm_id = some lm) (hn : (keys lm.obs).Nodup) (ht : t ∈ keys lm.obs) :
    ∃ db1, db.removeObservations lm_id [t] = .ok db1 ∧
      (lm.obs.length = min_num_obs →
        find db1.kpts lm_id = none ∧ lm_id ∉ keys db1.kpts ∧
        ¬ occursInIndex db1.observations lm_id) ∧
      (min_num_obs < lm.obs.length →
        find db1.kpts lm_id = some { lm with obs := erase lm.obs t } ∧
        t ∉ keys (erase lm.obs t) ∧
        (∀ t1, t1 ≠ t → find (erase lm.obs t) t1 = find lm.obs t1) ∧
        lm_id ∉ idx db1.observations lm.host_kf_id t) := by
  have hlen := length_erase_of_mem hn ht
  have hex : ∃ db1, db.removeObservations lm_id [t] = .ok db1 := by
    unfold LandmarkDatabase.removeObservations
    simp only [hf]
    exact ⟨_, rfl⟩
  obtain ⟨db1, h⟩ := hex
  have hfind := find_kpts_removeObservations h lm_id
  simp only [if_true, hf, Option.some_bind, List.foldl_cons, List.foldl_nil] at hfind
  have hc1 := consistent_removeObservations hc h
  have hw1 := wf_removeObservations hw h
  refine ⟨db1, h, ?_, ?_⟩
  · intro h2
    have hlt : (erase lm.obs t).length < min_num_obs := by omega
    rw [if_pos hlt] at hfind
    exact ⟨hfind, (find_eq_none_iff _ _).1 hfind, not_occursInIndex_of_absent hc1 hw1 hfind⟩
  · intro h2
    have hge : ¬ (erase lm.obs t).length < min_num_obs := by omega
    rw [if_neg hge] at hfind
    refine ⟨hfind, ?_, ?_, ?_⟩
    · intro hm
      exact (mem_keys_erase.1 hm).2 rfl
    · intro t1 ht1
      rw [find_erase]
      simp [ht1]
    · intro hm
      obtain ⟨lm1, hf1, -, ht1⟩ := hc1.1 _ _ _ hm
      rw [hfind] at hf1
      cases hf1
      exact (mem_keys_erase.1 ht1).2 rfl

/-- Witness of C4: landmark 1 of the window-slide example has exactly two
observations and is removed with the observation in frame 2; landmark 7 of
`exThree` has three and survives. -/
theorem removeObservations_cascade_witness :
    (∃ db1, exWindow.removeObservations 1 [exView 2] = .ok db1 ∧
      find db1.kpts 1 = none ∧ ¬ occursInIndex db1.observations 1) ∧
    (∃ db1, exThree.removeObservations 7 [exView 2] = .ok db1 ∧
      find db1.kpts 7 = some (exLandmark 1 [3, 4] 7)) := by
  constructor
  · obtain ⟨db1, h, h2, -⟩ := removeObservations_cascade exWindow
      (consistent_run consistent_empty _) (wf_run wf_empty _) 1 (exLandmark 1 [2, 3] 1)
      (exView 2) rfl (by decide) (by decide)
    exact ⟨db1, h, (h2 rfl).1, (h2 rfl).2.2⟩
  · obtain ⟨db1, h, -, h3⟩ := removeObservations_cascade exThree
      (consistent_run consistent_empty _) (wf_run wf_empty _) 7 (exLandmark 1 [2, 3, 4] 7)
      (exView 2) rfl (by decide) (by decide)
    exact ⟨db1, h, (h3 (by decide)).1⟩

/-- C3. Window slide: in a consistent database that holds exactly the
landmarks L1, hosted in frame F1, and L2, all of whose observations are in
frame F1, `removeKeyframes({F1}, {}, {})` removes L1 because its host is
marginalized, removes every observation of L2, which leaves L2 with zero
observations, and so removes L2; no landmark and no index entry are left. -/
theorem window_slide_removeKeyframes (db : LandmarkDatabase S) (hc : Consistent db)
    (hw : WF db) (l1 l2 : LandmarkId) (L1 L2 : Landmark S) (F1 : FrameId)
    (hk : ∀ x, x ∈ keys db.kpts ↔ x = l1 ∨ x = l2)
    (h1 : find db.kpts l1 = some L1) (h2 : find db.kpts l2 = some L2)
    (hh1 : L1.host_kf_id.frame_id = F1)
    (ho2 : ∀ t ∈ keys L2.obs, t.frame_id = F1) :
    ((keys L2.obs).filter (fun t => decide (t.frame_id ∈ [F1]))).foldl erase L2.obs = [] ∧
    find (db.removeKeyframes [F1] [] []).kpts l1 = none ∧
    find (db.removeKeyframes [F1] [] []).kpts l2 = none ∧
    (db.removeKeyframes [F1] [] []).kpts = [] ∧
    (db.removeKeyframes [F1] [] []).observations = [] := by
  have hnil : ∀ (tg : TimeCamId → Bool), (∀ t ∈ keys L2.obs, tg t = true) →
      ((keys L2.obs).filter tg).foldl erase L2.obs = [] := by
    intro tg htg
    have hkeys : keys (((keys L2.obs).filter tg).foldl erase L2.obs) = [] := by
      apply List.eq_nil_iff_forall_not_mem.2
      intro x hx
      rw [mem_keys_foldl_erase] at hx
      exact hx.2 (List.mem_filter.2 ⟨hx.1, htg x hx.1⟩)
    exact List.map_eq_nil_iff.1 hkeys
  have hfind : ∀ x, find (db.removeKeyframes [F1] [] []).kpts x = none := by
    intro x
    unfold LandmarkDatabase.removeKeyframes
    rw [find_kpts_sweep _ _ _ hw]
    by_cases hx : x ∈ keys db.kpts
    · rcases (hk x).1 hx with rfl | rfl
      · rw [h1, Option.some_bind]
        unfold sweepLandmark
        simp [hh1]
      · rw [h2, Option.some_bind]
        unfold sweepLandmark
        split
        · rfl
        · simp only [Bool.false_and, Bool.false_eq_true, if_false]
          rw [hnil]
          · simp [min_num_obs]
          · intro t ht
            simp [ho2 t ht]
    · rw [(find_eq_none_iff _ _).2 hx]
      rfl
  refine ⟨hnil _ ?_, hfind l1, hfind l2, eq_nil_of_find_none hfind, ?_⟩
  · intro t ht
    simp [ho2 t ht]
  · exact observations_nil_of_kpts_nil (consistent_sweep _ _ _ hc) hfind

/-- Witness of C3: L1 hosted in frame 1 and observed in frames 2 and 3, L2
hosted in frame 2 and observed in frame 1. -/
theorem window_slide_removeKeyframes_witness :
    (exWindow.removeKeyframes [1] [] []).kpts = [] ∧
    (exWindow.removeKeyframes [1] [] []).observations = [] := by
  have h := window_slide_removeKeyframes exWindow (consistent_run consistent_empty _)
    (wf_run wf_empty _) 1 2 (exLandmark 1 [2, 3] 1) (exLandmark 2 [1] 2) 1
    (by
      intro x
      have e : keys exWindow.kpts = [1, 2] := rfl
      rw [e]
      simp)
    rfl rfl rfl (by decide)
  exact ⟨h.2.2.2.1, h.2.2.2.2⟩

end Claims

end Basalt
